import Mathlib

/-!
# Verification of `neurobooth_analysis_tools.data.database`

A shallow embedding of the database module of the repository:

* `fuzzy_join_date` (source lines 149-185): pandas merge on hard keys,
  signed day-offset column, group-wise rank (`method='min'`,
  `na_option='bottom'`) and selection of rank-1 rows.
* `wait_for_refresh` (lines 98-120): a bounded poll loop over table existence.
* `DatabaseConnection.download` (lines 44-87): orchestration of the table
  downloads, the session view and the five fuzzy joins, with cached
  attributes on the connection object.
* `DatabaseConnection.get_test_subjects` (lines 122-146): cached query whose
  result is `.to_numpy(dtype='U').squeeze()`d.

Data frames are modelled as lists of rows; a row is an association list from
column names to nullable rational cells (dates are rationals measured in
days, so signed day offsets with sub-day precision are exact differences).
The pandas behaviours that matter here are modelled explicitly:

* `pd.merge(..., how='left')` emits, per left row, one row per hard-key
  match (right rows in order), or a single row padded with nulls when no
  right row matches.
* assigning to a column overwrites it in place when it exists and appends
  it otherwise.
* `Series.rank(method='min', na_option='bottom')` gives a value rank
  `1 + #(strictly smaller values)`, where nulls compare larger than every
  non-null value and equal to each other.
* `groupby` uses `dropna=True`: rows whose group key contains a null are
  excluded from every group, and group-wise transforms such as `rank`
  return null for them; a null rank fails the `== 1` mask, so those rows
  are dropped by the rank filter.
-/

namespace Neurobooth

/-- A nullable cell of a data frame (dates and numbers are rationals,
`none` is `NaN`/`NaT`/`pd.NA`). -/
abbrev Cell := Option ℚ

/-- A data-frame row: an ordered association list from column names to
cells. -/
abbrev Row := List (String × Cell)

/-- The column names of a row, in order. -/
def rowKeys (r : Row) : List String := r.map Prod.fst

/-- Whether the row has a column named `c`. -/
def rowHasCol : Row → String → Bool
  | [], _ => false
  | p :: r, c => p.1 == c || rowHasCol r c

/-- The value of column `c` (the first occurrence), `none` when absent —
reading a genuinely missing column is modelled by the fallible wrappers. -/
def rowGet : Row → String → Cell
  | [], _ => none
  | p :: r, c => if p.1 == c then p.2 else rowGet r c

/-- `df[c] = v` on one row: overwrite the column in place when present,
append it otherwise (pandas column assignment). -/
def rowSet (r : Row) (c : String) (v : Cell) : Row :=
  if rowHasCol r c then r.map (fun p => if p.1 == c then (c, v) else p)
  else r ++ [(c, v)]

/-- `df.drop(columns=c)` on one row. -/
def rowDropCol (r : Row) (c : String) : Row := r.filter (fun p => p.1 != c)

theorem rowHasCol_iff_mem_keys {r : Row} {c : String} :
    rowHasCol r c = true ↔ c ∈ rowKeys r := by
  induction r with
  | nil => simp [rowHasCol, rowKeys]
  | cons p r ih =>
    by_cases hp : p.1 = c
    · simp [rowHasCol, rowKeys, hp]
    · simp [rowHasCol, rowKeys, hp, ih, Ne.symm hp]

theorem rowHasCol_append {r t : Row} {c : String} :
    rowHasCol (r ++ t) c = (rowHasCol r c || rowHasCol t c) := by
  induction r with
  | nil => simp [rowHasCol]
  | cons p r ih => simp [rowHasCol, ih, Bool.or_assoc]

theorem rowGet_append {r t : Row} {c : String} :
    rowGet (r ++ t) c = if rowHasCol r c then rowGet r c else rowGet t c := by
  induction r with
  | nil => simp [rowHasCol, rowGet]
  | cons p r ih =>
    by_cases hp : p.1 = c
    · simp [rowHasCol, rowGet, hp]
    · simp [rowHasCol, rowGet, hp, ih]

theorem rowGet_append_of_hasCol {r t : Row} {c : String}
    (h : rowHasCol r c = true) : rowGet (r ++ t) c = rowGet r c := by
  rw [rowGet_append, h]; rfl

theorem rowGet_append_of_not_hasCol {r t : Row} {c : String}
    (h : rowHasCol r c = false) : rowGet (r ++ t) c = rowGet t c := by
  rw [rowGet_append, h]; rfl

theorem rowGet_singleton_same {c : String} {v : Cell} :
    rowGet [(c, v)] c = v := by
  simp [rowGet]

theorem rowGet_singleton_of_ne {c c' : String} {v : Cell} (h : c' ≠ c) :
    rowGet [(c, v)] c' = none := by
  simp [rowGet, Ne.symm h]

theorem rowGet_eq_none_of_not_hasCol {r : Row} {c : String}
    (h : rowHasCol r c = false) : rowGet r c = none := by
  induction r with
  | nil => rfl
  | cons p r ih =>
    simp only [rowHasCol, Bool.or_eq_false_iff, beq_eq_false_iff_ne] at h
    simp only [rowGet, h.1, if_false, beq_iff_eq]
    exact ih (by simpa using h.2)

theorem rowSet_of_not_hasCol {r : Row} {c : String} {v : Cell}
    (h : rowHasCol r c = false) : rowSet r c v = r ++ [(c, v)] := by
  simp [rowSet, h]

theorem map_overwrite_of_not_hasCol {r : Row} {c : String} {v : Cell}
    (h : rowHasCol r c = false) :
    r.map (fun p => if p.1 == c then (c, v) else p) = r := by
  induction r with
  | nil => rfl
  | cons p r ih =>
    simp only [rowHasCol, Bool.or_eq_false_iff] at h
    have hp : (p.1 == c) = false := h.1
    simp only [List.map_cons, hp, Bool.false_eq_true, if_false]
    rw [ih h.2]

theorem keys_map_overwrite {r : Row} {c : String} {v : Cell} :
    rowKeys (r.map (fun p => if p.1 == c then (c, v) else p)) = rowKeys r := by
  simp only [rowKeys, List.map_map]
  apply List.map_congr_left
  intro p _
  rcases hb : (p.1 == c) with _ | _
  · simp [Function.comp, hb]
  · simp only [Function.comp, hb, if_true]
    rw [beq_iff_eq] at hb
    exact hb.symm

theorem rowHasCol_eq_any_keys {r : Row} {c : String} :
    rowHasCol r c = (rowKeys r).any (fun k => k == c) := by
  induction r with
  | nil => rfl
  | cons p r ih => simp [rowHasCol, rowKeys, ih]

theorem rowHasCol_congr_keys {r t : Row} {c : String}
    (h : rowKeys r = rowKeys t) : rowHasCol r c = rowHasCol t c := by
  rw [rowHasCol_eq_any_keys, rowHasCol_eq_any_keys, h]

theorem rowGet_map_overwrite_of_ne {r : Row} {c c' : String} {v : Cell}
    (h : c' ≠ c) :
    rowGet (r.map (fun p => if p.1 == c then (c, v) else p)) c' = rowGet r c' := by
  induction r with
  | nil => rfl
  | cons p r ih =>
    rcases hb : (p.1 == c) with _ | _
    · simp only [List.map_cons, hb, Bool.false_eq_true, if_false, rowGet]
      rcases hb' : (p.1 == c') with _ | _
      · simp only [hb', Bool.false_eq_true, if_false]
        exact ih
      · simp only [hb', if_true]
    · have h1 : (c == c') = false := by
        rw [beq_eq_false_iff_ne]
        exact fun e => h e.symm
      have h2 : (p.1 == c') = false := by
        rw [beq_eq_false_iff_ne]
        rw [beq_iff_eq] at hb
        rw [hb]
        exact fun e => h e.symm
      simp only [List.map_cons, hb, if_true, rowGet, h1, h2, Bool.false_eq_true,
        if_false]
      exact ih

theorem rowGet_map_overwrite_same {r : Row} {c : String} {v : Cell}
    (h : rowHasCol r c = true) :
    rowGet (r.map (fun p => if p.1 == c then (c, v) else p)) c = v := by
  induction r with
  | nil => simp [rowHasCol] at h
  | cons p r ih =>
    rcases hb : (p.1 == c) with _ | _
    · have hr : rowHasCol r c = true := by
        have h' := h
        simp only [rowHasCol, hb, Bool.false_or] at h'
        exact h'
      simp only [List.map_cons, hb, Bool.false_eq_true, if_false, rowGet]
      exact ih hr
    · simp only [List.map_cons, hb, if_true, rowGet, beq_self_eq_true]

theorem rowDropCol_of_not_hasCol {r : Row} {c : String}
    (h : rowHasCol r c = false) : rowDropCol r c = r := by
  induction r with
  | nil => rfl
  | cons p r ih =>
    simp only [rowHasCol, Bool.or_eq_false_iff] at h
    have hp : (p.1 != c) = true := by
      simp [bne, h.1]
    simp only [rowDropCol, List.filter_cons, hp, if_true]
    rw [show List.filter (fun q => q.1 != c) r = rowDropCol r c from rfl, ih h.2]

theorem rowDropCol_append_singleton {r : Row} {c : String} {v : Cell}
    (h : rowHasCol r c = false) : rowDropCol (r ++ [(c, v)]) c = r := by
  unfold rowDropCol
  rw [List.filter_append]
  have h1 : List.filter (fun p => p.1 != c) [(c, v)] = ([] : Row) := by
    simp [List.filter, bne]
  rw [h1, List.append_nil]
  exact rowDropCol_of_not_hasCol h

theorem rowGet_append_singleton_of_ne {r : Row} {c c' : String} {v : Cell}
    (h : c' ≠ c) : rowGet (r ++ [(c, v)]) c' = rowGet r c' := by
  rw [rowGet_append]
  rcases hr : rowHasCol r c' with _ | _
  · simp [rowGet_singleton_of_ne h, rowGet_eq_none_of_not_hasCol hr]
  · rfl

theorem rowGet_append_singleton_same {r : Row} {c : String} {v : Cell}
    (h : rowHasCol r c = false) : rowGet (r ++ [(c, v)]) c = v := by
  rw [rowGet_append_of_not_hasCol h, rowGet_singleton_same]

theorem rowGet_set_of_ne {r : Row} {c c' : String} {v : Cell} (h : c' ≠ c) :
    rowGet (rowSet r c v) c' = rowGet r c' := by
  unfold rowSet
  rcases hc : rowHasCol r c with _ | _
  · simp only [Bool.false_eq_true, if_false]
    exact rowGet_append_singleton_of_ne h
  · simp only [if_true]
    exact rowGet_map_overwrite_of_ne h

theorem rowGet_set_same {r : Row} {c : String} {v : Cell} :
    rowGet (rowSet r c v) c = v := by
  unfold rowSet
  rcases hc : rowHasCol r c with _ | _
  · simp only [Bool.false_eq_true, if_false]
    exact rowGet_append_singleton_same hc
  · simp only [if_true]
    exact rowGet_map_overwrite_same hc

theorem keys_rowSet {r : Row} {c : String} {v : Cell} :
    rowKeys (rowSet r c v) =
      if rowHasCol r c then rowKeys r else rowKeys r ++ [c] := by
  unfold rowSet
  rcases hc : rowHasCol r c with _ | _
  · simp [rowKeys]
  · simpa using keys_map_overwrite

theorem rowHasCol_set {r : Row} {c c' : String} {v : Cell} :
    rowHasCol (rowSet r c v) c' = (rowHasCol r c' || c == c') := by
  rw [rowHasCol_eq_any_keys, keys_rowSet]
  rcases hc : rowHasCol r c with _ | _
  · simp only [Bool.false_eq_true, if_false]
    rw [List.any_append, ← rowHasCol_eq_any_keys]
    simp
  · simp only [if_true]
    rw [← rowHasCol_eq_any_keys]
    by_cases hcc : c = c'
    · subst hcc
      simp [hc]
    · simp [hcc]

/-- An in-memory table: ordered column names and rows (each row an
association list over those columns). -/
structure DFrame where
  cols : List String
  rows : List Row
deriving DecidableEq

/-- The join kinds exercised by this module (`fuzzy_join_date` forwards its
`**kwargs` — here the `how` argument — to `pd.merge`; `download` always
passes `how='left'`, and pandas' default is `'inner'`). -/
inductive JoinHow
  | inner
  | left
deriving DecidableEq

/-- The hard (exact-match) join condition of `pd.merge(..., on=hard_on)`:
all hard-key cells agree (pandas matches null keys with each other). -/
def matchKeys (hard : List String) (l rr : Row) : Bool :=
  hard.all (fun c => rowGet l c == rowGet rr c)

/-- The right-side columns that survive a merge on `hard` (the key columns
appear once, coming from the left side). -/
def rightOnlyCols (hard : List String) (rcols : List String) : List String :=
  rcols.filter (fun c => !(hard.contains c))

/-- The null padding used for a left row without any hard-key match in a
left-outer merge. -/
def nullRightRow (hard : List String) (rcols : List String) : Row :=
  (rightOnlyCols hard rcols).map (fun c => (c, (none : Cell)))

/-- A right row with its hard-key columns removed (they are already present
on the left side of the merged row). -/
def stripHard (hard : List String) (rr : Row) : Row :=
  rr.filter (fun p => !(hard.contains p.1))

/-- Rows of `pd.merge(left_df, right_df, on=hard_on, how=...)`: per left
row, one output row per matching right row (right order preserved); a
left-outer merge emits one null-padded row when nothing matches. -/
def mergedRowsOf (how : JoinHow) (hard : List String) (L R : DFrame) :
    List Row :=
  L.rows.flatMap (fun l =>
    match how with
    | .inner =>
      (R.rows.filter (matchKeys hard l)).map (fun rr => l ++ stripHard hard rr)
    | .left =>
      if (R.rows.filter (matchKeys hard l)).isEmpty
      then [l ++ nullRightRow hard R.cols]
      else
        (R.rows.filter (matchKeys hard l)).map
          (fun rr => l ++ stripHard hard rr))

/-- `pd.merge(left_df, right_df, on=hard_on, how=...)` (line 170), for
inputs whose non-key column names do not overlap (so no suffixing). -/
def merge (how : JoinHow) (hard : List String) (L R : DFrame) : DFrame :=
  ⟨L.cols ++ rightOnlyCols hard R.cols, mergedRowsOf how hard L R⟩

/-- Pandas column assignment `df[c] = f(df)`: the new column is computed
from the frame as it stands, then written in place (or appended). -/
def DFrame.assign (df : DFrame) (c : String) (f : Row → Cell) : DFrame :=
  ⟨if df.cols.contains c then df.cols else df.cols ++ [c],
   df.rows.map (fun r => rowSet r c (f r))⟩

/-- Null-propagating subtraction: `right_date - left_date` is null whenever
either operand is (datetime arithmetic with `NaT`). -/
def cellSub : Cell → Cell → Cell
  | some b, some a => some (b - a)
  | _, _ => none

/-- Null-propagating absolute value (`Series.abs`). -/
def cellAbs (c : Cell) : Cell := c.map (fun q => |q|)

/-- The strict comparison used by `rank(method='min', na_option='bottom')`:
nulls sort after every value and tie with each other. -/
def ltCell : Cell → Cell → Bool
  | some a, some b => decide (a < b)
  | some _, none => true
  | none, _ => false

/-- `Series.rank(method='min', na_option='bottom')` of value `v` among
`vals`: one plus the number of strictly smaller values (as a rational,
since pandas ranks are floats). -/
def rankCell (vals : List Cell) (v : Cell) : Cell :=
  some (mkRat (vals.countP (fun w => ltCell w v) + 1) 1)

/-- The helper column name used by `fuzzy_join_date` (line 177). -/
def rankColName : String := "__Rank__"

/-- The group key of `groupby([*hard_on, fuzzy_on_left])` for one row. -/
def groupKeyOf (hard : List String) (fl : String) (r : Row) : List Cell :=
  (hard ++ [fl]).map (rowGet r)

/-- Whether a row's group key contains a null (such rows are excluded by
`groupby`'s default `dropna=True`). -/
def hasNullKey (hard : List String) (fl : String) (r : Row) : Bool :=
  (groupKeyOf hard fl r).any Option.isNone

/-- `df.groupby([*hard_on, fuzzy_on_left])['__Rank__'].rank(method='min',
na_option='bottom')` for one row of `df`: null for rows dropped from the
group-by (null group key), otherwise the min-rank of the row's `__Rank__`
value among its group's values. -/
def groupRank (hard : List String) (fl : String) (rows : List Row) (r : Row) :
    Cell :=
  if hasNullKey hard fl r then none
  else
    rankCell
      ((rows.filter
          (fun r2 => groupKeyOf hard fl r2 == groupKeyOf hard fl r)).map
        (fun r2 => rowGet r2 rankColName))
      (rowGet r rankColName)

/-- The merged candidate set with its offset column (lines 170-174): the
hard-key merge followed by
`possible_matches[offset_column_name] = right_date - left_date` (already
converted to fractional days). -/
def candidateSet (L R : DFrame) (hard : List String) (fl fr off : String)
    (how : JoinHow) : DFrame :=
  (merge how hard L R).assign off (fun r => cellSub (rowGet r fr) (rowGet r fl))

/-- Line 177: `possible_matches['__Rank__'] =
possible_matches[offset_column_name].abs()`. -/
def absStage (L R : DFrame) (hard : List String) (fl fr off : String)
    (how : JoinHow) : DFrame :=
  (candidateSet L R hard fl fr off how).assign rankColName
    (fun r => cellAbs (rowGet r off))

/-- Lines 178-180: `possible_matches['__Rank__'] =
possible_matches.groupby([*hard_on, fuzzy_on_left])['__Rank__']
.rank(method='min', na_option='bottom')`. -/
def rankStage (L R : DFrame) (hard : List String) (fl fr off : String)
    (how : JoinHow) : DFrame :=
  ⟨(absStage L R hard fl fr off how).cols,
   (absStage L R hard fl fr off how).rows.map (fun r =>
     rowSet r rankColName
       (groupRank hard fl (absStage L R hard fl fr off how).rows r))⟩

/-- Lines 183-184: keep the rows whose rank equals 1 (`.loc[mask]`; a null
rank fails the mask). -/
def maskStage (L R : DFrame) (hard : List String) (fl fr off : String)
    (how : JoinHow) : DFrame :=
  ⟨(rankStage L R hard fl fr off how).cols,
   (rankStage L R hard fl fr off how).rows.filter
     (fun r => rowGet r rankColName == some 1)⟩

/-- `fuzzy_join_date` (lines 149-185): merge on the hard keys, add the
signed day-offset column, rank each row's absolute offset within its
`(hard_on, fuzzy_on_left)` group (`method='min'`, `na_option='bottom'`),
keep the rank-1 rows and drop the helper column (line 185). -/
def fuzzy_join_date (L R : DFrame) (hard : List String) (fl fr off : String)
    (how : JoinHow) : DFrame :=
  ⟨(maskStage L R hard fl fr off how).cols.filter (fun c => c != rankColName),
   (maskStage L R hard fl fr off how).rows.map
     (fun r => rowDropCol r rankColName)⟩

/-- The absolute offset of a candidate row (null-propagating), the quantity
the rank filter minimises within each group. -/
def absOffset (off : String) (r : Row) : Cell := cellAbs (rowGet r off)

/-- A candidate row is a best match when no row of its
`(hard_on, fuzzy_on_left)` group has a strictly smaller absolute offset
(nulls compare last, so a null offset is best only in an all-null group). -/
def bestInGroup (hard : List String) (fl off : String) (rows : List Row)
    (r : Row) : Bool :=
  rows.all (fun r2 =>
    !(groupKeyOf hard fl r2 == groupKeyOf hard fl r
      && ltCell (absOffset off r2) (absOffset off r)))

/-- The rank a candidate row receives from lines 177-180, expressed over
the candidate set itself: null for rows with a null group key, otherwise
the min-rank of the row's absolute offset within its group. -/
def rankInC (hard : List String) (fl off : String) (rows : List Row)
    (r : Row) : Cell :=
  if hasNullKey hard fl r then none
  else
    rankCell
      ((rows.filter
          (fun r2 => groupKeyOf hard fl r2 == groupKeyOf hard fl r)).map
        (absOffset off))
      (absOffset off r)

theorem rowSet_append_singleton {r : Row} {c : String} {v w : Cell}
    (h : rowHasCol r c = false) :
    rowSet (r ++ [(c, w)]) c v = r ++ [(c, v)] := by
  have hc : rowHasCol (r ++ [(c, w)]) c = true := by
    rw [rowHasCol_append, h]
    simp [rowHasCol]
  unfold rowSet
  simp only [hc, if_true]
  rw [List.map_append, map_overwrite_of_not_hasCol h]
  simp

theorem all_filter_or {α : Type} (q p : α → Bool) (l : List α) :
    (l.filter q).all p = l.all (fun a => !(q a) || p a) := by
  induction l with
  | nil => rfl
  | cons a l ih =>
    rcases hq : q a with _ | _
    · simp [List.filter_cons, hq, ih]
    · simp [List.filter_cons, hq, ih]

theorem all_map_general {α β : Type} (f : α → β) (p : β → Bool) (l : List α) :
    (l.map f).all p = l.all (fun a => p (f a)) := by
  induction l with
  | nil => rfl
  | cons a l ih => simp [ih]

theorem groupKeyOf_append_rank {hard : List String} {fl : String} {r : Row}
    {v : Cell} (hfl : fl ≠ rankColName) (hhard : ∀ c ∈ hard, c ≠ rankColName) :
    groupKeyOf hard fl (r ++ [(rankColName, v)]) = groupKeyOf hard fl r := by
  unfold groupKeyOf
  apply List.map_congr_left
  intro c hc
  rcases List.mem_append.mp hc with h | h
  · exact rowGet_append_singleton_of_ne (hhard c h)
  · simp only [List.mem_singleton] at h
    subst h
    exact rowGet_append_singleton_of_ne hfl

theorem hasNullKey_append_rank {hard : List String} {fl : String} {r : Row}
    {v : Cell} (hfl : fl ≠ rankColName) (hhard : ∀ c ∈ hard, c ≠ rankColName) :
    hasNullKey hard fl (r ++ [(rankColName, v)]) = hasNullKey hard fl r := by
  unfold hasNullKey
  rw [groupKeyOf_append_rank hfl hhard]

theorem rankCell_eq_one_iff {vals : List Cell} {v : Cell} :
    (rankCell vals v == some 1) = vals.all (fun w => !(ltCell w v)) := by
  unfold rankCell
  rcases h : vals.countP (fun w => ltCell w v) with _ | n
  · have hall : vals.all (fun w => !(ltCell w v)) = true := by
      rw [List.all_eq_true]
      intro w hw
      have hw0 := List.countP_eq_zero.mp h w hw
      simp only [Bool.not_eq_true] at hw0
      simp [hw0]
    rw [hall]
    decide
  · have hall : vals.all (fun w => !(ltCell w v)) = false := by
      rw [Bool.eq_false_iff]
      intro hA
      rw [List.all_eq_true] at hA
      have h0 : vals.countP (fun w => ltCell w v) = 0 := by
        rw [List.countP_eq_zero]
        intro w hw
        have := hA w hw
        simp only [Bool.not_eq_true'] at this
        simp [this]
      omega
    rw [hall]
    rw [Bool.eq_false_iff]
    intro hB
    rw [beq_iff_eq, Option.some_inj, Rat.mkRat_one] at hB
    have hn : (0 : ℚ) ≤ (n : ℚ) := Nat.cast_nonneg n
    push_cast at hB
    linarith

/-- The `__Rank__ == 1` mask (line 183), rewritten as group-minimality of
the absolute offset under a non-null group key. -/
theorem rankInC_eq_one (hard : List String) (fl off : String)
    (rows : List Row) (r : Row) :
    (rankInC hard fl off rows r == some 1)
      = (!(hasNullKey hard fl r) && bestInGroup hard fl off rows r) := by
  unfold rankInC
  rcases hnull : hasNullKey hard fl r with _ | _
  · simp only [Bool.false_eq_true, if_false, Bool.not_false, Bool.true_and]
    rw [rankCell_eq_one_iff, all_map_general, all_filter_or]
    unfold bestInGroup
    congr 1
    funext r2
    simp [Bool.not_and]
  · simp only [if_true, Bool.not_true, Bool.false_and]
    rfl

theorem fuzzy_survivors_eq (L R : DFrame) (hard : List String)
    (fl fr off : String) (how : JoinHow)
    (hno : ∀ r ∈ (candidateSet L R hard fl fr off how).rows,
      rowHasCol r rankColName = false)
    (hfl : fl ≠ rankColName) (hhard : ∀ c ∈ hard, c ≠ rankColName) :
    (fuzzy_join_date L R hard fl fr off how).rows =
      (candidateSet L R hard fl fr off how).rows.filter
        (fun r => !(hasNullKey hard fl r)
          && bestInGroup hard fl off
            (candidateSet L R hard fl fr off how).rows r) := by
  -- the rows after the `abs` assignment to `__Rank__` (line 177)
  have habs : (absStage L R hard fl fr off how).rows
      = (candidateSet L R hard fl fr off how).rows.map
          (fun r => r ++ [(rankColName, absOffset off r)]) := by
    show (candidateSet L R hard fl fr off how).rows.map _ = _
    apply List.map_congr_left
    intro r hr
    rw [rowSet_of_not_hasCol (hno r hr)]
    rfl
  -- the group-wise rank of lines 178-180 over the extended rows equals
  -- `rankInC` over the candidate rows
  have hrank : ∀ r ∈ (candidateSet L R hard fl fr off how).rows,
      groupRank hard fl
        ((candidateSet L R hard fl fr off how).rows.map
          (fun r2 => r2 ++ [(rankColName, absOffset off r2)]))
        (r ++ [(rankColName, absOffset off r)])
      = rankInC hard fl off (candidateSet L R hard fl fr off how).rows r := by
    intro r hr
    unfold groupRank rankInC
    rw [hasNullKey_append_rank hfl hhard]
    rcases hnull : hasNullKey hard fl r with _ | _
    · simp only [Bool.false_eq_true, if_false]
      rw [groupKeyOf_append_rank hfl hhard]
      congr 1
      · rw [List.filter_map, List.map_map]
        have hfc : List.filter
            ((fun r2 => groupKeyOf hard fl r2 == groupKeyOf hard fl r)
              ∘ (fun r2 => r2 ++ [(rankColName, absOffset off r2)]))
            (candidateSet L R hard fl fr off how).rows
            = List.filter
              (fun r2 => groupKeyOf hard fl r2 == groupKeyOf hard fl r)
              (candidateSet L R hard fl fr off how).rows := by
          apply List.filter_congr
          intro r2 hr2
          simp only [Function.comp_apply]
          rw [groupKeyOf_append_rank hfl hhard]
        rw [hfc]
        apply List.map_congr_left
        intro r2 hr2
        simp only [Function.comp_apply]
        exact rowGet_append_singleton_same (hno r2 (List.mem_of_mem_filter hr2))
      · exact rowGet_append_singleton_same (hno r hr)
    · simp
  -- rows after the rank overwrite (lines 178-180)
  have hranked : (rankStage L R hard fl fr off how).rows
      = (candidateSet L R hard fl fr off how).rows.map
          (fun r => r ++ [(rankColName,
            rankInC hard fl off (candidateSet L R hard fl fr off how).rows r)]) := by
    show (absStage L R hard fl fr off how).rows.map
      (fun r => rowSet r rankColName
        (groupRank hard fl (absStage L R hard fl fr off how).rows r)) = _
    rw [habs, List.map_map]
    apply List.map_congr_left
    intro r hr
    simp only [Function.comp_apply]
    rw [rowSet_append_singleton (hno r hr), hrank r hr]
  -- rows after the rank-1 mask (lines 183-184)
  have hmask : (maskStage L R hard fl fr off how).rows
      = ((candidateSet L R hard fl fr off how).rows.filter
          (fun r => rankInC hard fl off
            (candidateSet L R hard fl fr off how).rows r == some 1)).map
          (fun r => r ++ [(rankColName,
            rankInC hard fl off (candidateSet L R hard fl fr off how).rows r)]) := by
    show (rankStage L R hard fl fr off how).rows.filter
      (fun r => rowGet r rankColName == some 1) = _
    rw [hranked, List.filter_map]
    apply congrArg
    apply List.filter_congr
    intro r hr
    simp only [Function.comp_apply]
    rw [rowGet_append_singleton_same (hno r hr)]
  -- dropping the helper column (line 185) recovers the candidate rows
  show (maskStage L R hard fl fr off how).rows.map
    (fun r => rowDropCol r rankColName) = _
  rw [hmask, List.map_map]
  have hdrop : ∀ r ∈ (candidateSet L R hard fl fr off how).rows.filter
      (fun r => rankInC hard fl off
        (candidateSet L R hard fl fr off how).rows r == some 1),
      ((fun r => rowDropCol r rankColName)
        ∘ (fun r => r ++ [(rankColName,
          rankInC hard fl off (candidateSet L R hard fl fr off how).rows r)])) r
      = id r := by
    intro r hr
    simp only [Function.comp_apply, id]
    exact rowDropCol_append_singleton (hno r (List.mem_of_mem_filter hr))
  rw [List.map_congr_left hdrop, List.map_id]
  apply List.filter_congr
  intro r hr
  exact rankInC_eq_one hard fl off (candidateSet L R hard fl fr off how).rows r

/-! ## `wait_for_refresh` (lines 98-120)

The environment is a function `has_table k t` telling whether table `t`
exists at the `k`-th inspection (`sqlalchemy.inspect(engine).has_table`).
The model returns the Python result (`()` or the raised
`DatabaseException`, as its message string) together with the observable
effects: the number of existence checks performed and the list of sleep
durations, in order. -/

/-- The message of the `DatabaseException` raised at lines 118-120. -/
def timeout_message (max_polls : ℕ) (table_names : List String) : String :=
  "Exceeded maximum polls (N=" ++ toString max_polls
    ++ ") when checking for existence of: "
    ++ String.intercalate ", " table_names ++ "."

/-- The `for _ in range(max_polls)` loop of lines 110-116: check all
tables; return on success, otherwise sleep `poll_interval_sec` and retry;
raise after the loop. `k` is the current iteration index, the fuel is the
number of remaining iterations. -/
def pollLoop (has_table : ℕ → String → Bool) (table_names : List String)
    (max_polls : ℕ) (poll_interval_sec : ℚ) :
    ℕ → ℕ → Except String Unit × ℕ × List ℚ
  | _, 0 => (Except.error (timeout_message max_polls table_names), 0, [])
  | k, fuel + 1 =>
    if table_names.all (has_table k) then (Except.ok (), 1, [])
    else
      let rest :=
        pollLoop has_table table_names max_polls poll_interval_sec (k + 1) fuel
      (rest.1, rest.2.1 + 1, poll_interval_sec :: rest.2.2)

/-- `DatabaseConnection.wait_for_refresh(engine, *table_names, max_polls,
poll_interval_sec)` (lines 98-120); the source defaults are
`max_polls=6`, `poll_interval_sec=5`. -/
def wait_for_refresh (has_table : ℕ → String → Bool)
    (table_names : List String) (max_polls : ℕ) (poll_interval_sec : ℚ) :
    Except String Unit × ℕ × List ℚ :=
  pollLoop has_table table_names max_polls poll_interval_sec 0 max_polls

theorem pollLoop_all_missing (has_table : ℕ → String → Bool)
    (tables : List String) (N : ℕ) (interval : ℚ) (k fuel : ℕ)
    (h : ∀ j < fuel, ∃ t ∈ tables, has_table (k + j) t = false) :
    pollLoop has_table tables N interval k fuel
      = (Except.error (timeout_message N tables), fuel,
         List.replicate fuel interval) := by
  induction fuel generalizing k with
  | zero => rfl
  | succ n ih =>
    have hfail : tables.all (has_table k) = false := by
      rw [Bool.eq_false_iff]
      intro hall
      rw [List.all_eq_true] at hall
      obtain ⟨t, ht, hf⟩ := h 0 (Nat.succ_pos n)
      rw [Nat.add_zero] at hf
      rw [hall t ht] at hf
      simp at hf
    have hrest := ih (k + 1) (by
      intro j hj
      obtain ⟨t, ht, hf⟩ := h (j + 1) (by omega)
      refine ⟨t, ht, ?_⟩
      rw [show k + 1 + j = k + (j + 1) by omega]
      exact hf)
    rw [show pollLoop has_table tables N interval k (n + 1)
      = if tables.all (has_table k) then (Except.ok (), 1, [])
        else
          let rest := pollLoop has_table tables N interval (k + 1) n
          (rest.1, rest.2.1 + 1, interval :: rest.2.2) from rfl]
    rw [hfail]
    simp only [Bool.false_eq_true, if_false, hrest, List.replicate_succ]

/-- C2 (counterexample): with `max_polls = 2` and a table that never
exists, the loop sleeps after every failed check including the last, so it
performs 2 sleeps, not `2 - 1 = 1` as the claim states. -/
theorem C2_sleep_count_counterexample :
    (wait_for_refresh (fun _ _ => false) ["subject"] 2 5).2.2.length = 2
      ∧ ¬((wait_for_refresh (fun _ _ => false) ["subject"] 2 5).2.2.length
            = 2 - 1) := by
  constructor
  · rfl
  · intro h
    have h2 : (wait_for_refresh (fun _ _ => false) ["subject"] 2 5).2.2.length
        = 2 := rfl
    omega

/-- C2 (amended): if at least one requested table is missing at every one
of the `N ≥ 1` checks, `wait_for_refresh` performs exactly `N` existence
checks and exactly `N` sleeps of `poll_interval_sec` (one after each
failed check, including the last), then raises the refresh-timeout
`DatabaseException` whose message names all requested tables (a superset
of the still-unresolved ones). -/
theorem C2_refresh_timeout (has_table : ℕ → String → Bool)
    (tables : List String) (N : ℕ) (interval : ℚ) (hN : 1 ≤ N)
    (hmiss : ∀ k < N, ∃ t ∈ tables, has_table k t = false) :
    wait_for_refresh has_table tables N interval
      = (Except.error (timeout_message N tables), N,
         List.replicate N interval) := by
  unfold wait_for_refresh
  apply pollLoop_all_missing
  intro j hj
  simpa using hmiss j hj

theorem C2_refresh_timeout_witness :
    (1 ≤ 3 ∧ ∀ k < 3, ∃ t ∈ ["subject"],
      (fun (_ : ℕ) (_ : String) => false) k t = false)
    ∧ wait_for_refresh (fun _ _ => false) ["subject"] 3 7
        = (Except.error (timeout_message 3 ["subject"]), 3,
           List.replicate 3 (7 : ℚ)) :=
  ⟨⟨by decide, by decide⟩,
   C2_refresh_timeout (fun _ _ => false) ["subject"] 3 7 (by decide)
     (by decide)⟩

/-- C6: when every requested table exists at the first check, the function
returns after exactly one existence check, with no sleeps, for any
`max_polls ≥ 1`. -/
theorem C6_immediate_return (has_table : ℕ → String → Bool)
    (tables : List String) (N : ℕ) (interval : ℚ) (hN : 1 ≤ N)
    (hall : ∀ t ∈ tables, has_table 0 t = true) :
    wait_for_refresh has_table tables N interval = (Except.ok (), 1, []) := by
  unfold wait_for_refresh
  obtain ⟨n, rfl⟩ : ∃ n, N = n + 1 := ⟨N - 1, by omega⟩
  rw [show pollLoop has_table tables (n + 1) interval 0 (n + 1)
    = if tables.all (has_table 0) then (Except.ok (), 1, [])
      else
        let rest := pollLoop has_table tables (n + 1) interval 1 n
        (rest.1, rest.2.1 + 1, interval :: rest.2.2) from rfl]
  rw [List.all_eq_true.mpr hall]
  rfl

theorem C6_immediate_return_witness :
    (1 ≤ 6 ∧ ∀ t ∈ ["subject", "rc_visit_dates"],
      (fun (_ : ℕ) (_ : String) => true) 0 t = true)
    ∧ wait_for_refresh (fun _ _ => true) ["subject", "rc_visit_dates"] 6 5
        = (Except.ok (), 1, []) :=
  ⟨⟨by decide, by decide⟩,
   C6_immediate_return (fun _ _ => true) ["subject", "rc_visit_dates"] 6 5
     (by decide) (by decide)⟩

/-! ## `get_test_subjects` (lines 122-146) -/

/-- A numpy array of subject-id strings with an explicit shape (data kept
flattened; the query result frame is `n` rows by 1 column). -/
structure NDArr where
  shape : List ℕ
  data : List String
deriving DecidableEq

/-- `np.squeeze`: remove every axis of length 1. -/
def NDArr.squeeze (a : NDArr) : NDArr :=
  ⟨a.shape.filter (fun n => n != 1), a.data⟩

instance exceptDecEq {ε α : Type} [DecidableEq ε] [DecidableEq α] :
    DecidableEq (Except ε α) := fun x y =>
  match x, y with
  | .error a, .error b =>
    if h : a = b then isTrue (by rw [h])
    else isFalse (by intro hc; cases hc; exact h rfl)
  | .error _, .ok _ => isFalse (by intro hc; cases hc)
  | .ok _, .error _ => isFalse (by intro hc; cases hc)
  | .ok a, .ok b =>
    if h : a = b then isTrue (by rw [h])
    else isFalse (by intro hc; cases hc; exact h rfl)

/-- The observable outcome of one `get_test_subjects` call: the returned
value (or the raised exception's message), the `test_subjects` cache
attribute afterwards, and whether the store was contacted (the refresh
wait ran / the query ran). -/
structure TestSubjectCall where
  result : Except String NDArr
  cache : Option NDArr
  wait_ran : Bool
  query_ran : Bool
deriving DecidableEq

/-- `DatabaseConnection.get_test_subjects(use_cache=...)` (lines 122-146):
return the cached array when permitted; otherwise wait for the consent
table (with the source defaults `max_polls=6`, `poll_interval_sec=5`),
run the fixed query — `query_rows` is the single column of distinct
subject ids it returns — and cache
`.to_numpy(dtype='U').squeeze()` of the `n × 1` result frame. -/
def get_test_subjects (use_cache : Bool) (cached : Option NDArr)
    (has_table : ℕ → String → Bool) (query_rows : List String) :
    TestSubjectCall :=
  match use_cache, cached with
  | true, some a => ⟨Except.ok a, some a, false, false⟩
  | _, _ =>
    match (wait_for_refresh has_table
        ["rc_participant_and_consent_information"] 6 5).1 with
    | Except.error e => ⟨Except.error e, cached, true, false⟩
    | Except.ok _ =>
      let arr := NDArr.squeeze ⟨[query_rows.length, 1], query_rows⟩
      ⟨Except.ok arr, some arr, true, true⟩

/-- C8: with a populated cache, `use_cache=True` returns the cached array
without contacting the store (no refresh wait, no query); `use_cache=False`
re-runs the query (when the store is available, i.e. the refresh wait
succeeds) and overwrites the cache with the new result. -/
theorem C8_cache_and_requery (has_table : ℕ → String → Bool)
    (query_rows : List String) :
    (∀ a : NDArr, get_test_subjects true (some a) has_table query_rows
        = ⟨Except.ok a, some a, false, false⟩)
    ∧ ((wait_for_refresh has_table
          ["rc_participant_and_consent_information"] 6 5).1 = Except.ok ()
        → ∀ cached : Option NDArr,
          get_test_subjects false cached has_table query_rows
            = ⟨Except.ok (NDArr.squeeze ⟨[query_rows.length, 1], query_rows⟩),
               some (NDArr.squeeze ⟨[query_rows.length, 1], query_rows⟩),
               true, true⟩) := by
  constructor
  · intro a
    rfl
  · intro hw cached
    cases cached <;> simp [get_test_subjects, hw]

theorem C8_cache_and_requery_witness :
    ((wait_for_refresh (fun _ _ => true)
        ["rc_participant_and_consent_information"] 6 5).1 = Except.ok ())
    ∧ get_test_subjects true (some ⟨[2], ["100001", "100002"]⟩)
        (fun _ _ => true) ["100009"]
      = ⟨Except.ok ⟨[2], ["100001", "100002"]⟩,
         some ⟨[2], ["100001", "100002"]⟩, false, false⟩
    ∧ get_test_subjects false (some ⟨[2], ["100001", "100002"]⟩)
        (fun _ _ => true) ["100009"]
      = ⟨Except.ok (NDArr.squeeze ⟨[["100009"].length, 1], ["100009"]⟩),
         some (NDArr.squeeze ⟨[["100009"].length, 1], ["100009"]⟩),
         true, true⟩ :=
  ⟨rfl,
   (C8_cache_and_requery (fun _ _ => true) ["100009"]).1
     ⟨[2], ["100001", "100002"]⟩,
   (C8_cache_and_requery (fun _ _ => true) ["100009"]).2 rfl
     (some ⟨[2], ["100001", "100002"]⟩)⟩

/-- C9: due to the `.squeeze()` on the `n × 1` query result, a query
returning exactly one identifier is returned and cached as a
0-dimensional array holding that identifier, while zero or two-or-more
identifiers give a 1-dimensional array. -/
theorem C9_squeeze_dimensionality (has_table : ℕ → String → Bool)
    (query_rows : List String) (cached : Option NDArr)
    (hw : (wait_for_refresh has_table
      ["rc_participant_and_consent_information"] 6 5).1 = Except.ok ()) :
    (get_test_subjects false cached has_table query_rows).cache
        = some (NDArr.squeeze ⟨[query_rows.length, 1], query_rows⟩)
    ∧ (get_test_subjects false cached has_table query_rows).result
        = Except.ok (NDArr.squeeze ⟨[query_rows.length, 1], query_rows⟩)
    ∧ (∀ tid : String, query_rows = [tid]
        → NDArr.squeeze ⟨[query_rows.length, 1], query_rows⟩ = ⟨[], [tid]⟩)
    ∧ (query_rows.length ≠ 1
        → (NDArr.squeeze ⟨[query_rows.length, 1], query_rows⟩).shape
            = [query_rows.length]) := by
  refine ⟨?_, ?_, ?_, ?_⟩
  · cases cached <;> simp [get_test_subjects, hw]
  · cases cached <;> simp [get_test_subjects, hw]
  · intro tid htid
    subst htid
    rfl
  · intro hne
    have h1 : (query_rows.length != 1) = true := by
      simp [bne]
      exact hne
    simp [NDArr.squeeze, List.filter, h1]

theorem C9_squeeze_dimensionality_witness :
    ((wait_for_refresh (fun _ _ => true)
        ["rc_participant_and_consent_information"] 6 5).1 = Except.ok ())
    ∧ ((get_test_subjects false none (fun _ _ => true) ["100003"]).cache
        = some (NDArr.squeeze ⟨[["100003"].length, 1], ["100003"]⟩)
      ∧ (get_test_subjects false none (fun _ _ => true) ["100003"]).result
        = Except.ok (NDArr.squeeze ⟨[["100003"].length, 1], ["100003"]⟩)
      ∧ (∀ tid : String, ["100003"] = [tid]
        → NDArr.squeeze ⟨[["100003"].length, 1], ["100003"]⟩ = ⟨[], [tid]⟩)
      ∧ (["100003"].length ≠ 1
        → (NDArr.squeeze ⟨[["100003"].length, 1], ["100003"]⟩).shape
            = [["100003"].length])) :=
  ⟨rfl, C9_squeeze_dimensionality (fun _ _ => true) ["100003"] none rfl⟩

/-! ## C1: what the rank filter keeps -/

theorem rowHasCol_filter_false {r : Row} {q : String × Cell → Bool}
    {n : String} (h : rowHasCol r n = false) :
    rowHasCol (r.filter q) n = false := by
  rw [Bool.eq_false_iff] at *
  intro htrue
  apply h
  rw [rowHasCol_iff_mem_keys] at *
  unfold rowKeys at *
  obtain ⟨p, hp, hpn⟩ := List.mem_map.mp htrue
  exact List.mem_map.mpr ⟨p, List.mem_of_mem_filter hp, hpn⟩

theorem rowKeys_nullRight (hard : List String) (rcols : List String) :
    rowKeys (nullRightRow hard rcols) = rightOnlyCols hard rcols := by
  unfold nullRightRow rowKeys
  rw [List.map_map]
  have hid : (Prod.fst ∘ fun c => ((c : String), (none : Cell))) = id := by
    funext c
    rfl
  rw [hid, List.map_id]

theorem rowHasCol_nullRight_false {hard rcols : List String} {n : String}
    (h : n ∉ rcols) : rowHasCol (nullRightRow hard rcols) n = false := by
  rw [Bool.eq_false_iff]
  intro htrue
  rw [rowHasCol_iff_mem_keys, rowKeys_nullRight] at htrue
  exact h (List.mem_of_mem_filter htrue)

/-- Shape of merged rows: each comes from a left row extended by a matched
(key-stripped) right row, or — in a left join — by the null padding. -/
theorem mem_mergedRows {how : JoinHow} {hard : List String} {L R : DFrame}
    {m : Row} (hm : m ∈ mergedRowsOf how hard L R) :
    ∃ l ∈ L.rows,
      (∃ rr ∈ R.rows, matchKeys hard l rr = true ∧ m = l ++ stripHard hard rr)
      ∨ m = l ++ nullRightRow hard R.cols := by
  unfold mergedRowsOf at hm
  obtain ⟨l, hl, hml⟩ := List.mem_flatMap.mp hm
  refine ⟨l, hl, ?_⟩
  cases how with
  | inner =>
    obtain ⟨rr, hrr, hmr⟩ := List.mem_map.mp hml
    exact Or.inl ⟨rr, List.mem_of_mem_filter hrr,
      List.of_mem_filter hrr, hmr.symm⟩
  | left =>
    rcases hempty : (R.rows.filter (matchKeys hard l)).isEmpty with _ | _
    · rw [hempty] at hml
      simp only [Bool.false_eq_true, if_false] at hml
      obtain ⟨rr, hrr, hmr⟩ := List.mem_map.mp hml
      exact Or.inl ⟨rr, List.mem_of_mem_filter hrr,
        List.of_mem_filter hrr, hmr.symm⟩
    · rw [hempty] at hml
      simp only [if_true, List.mem_singleton] at hml
      exact Or.inr hml

/-- Every row of the merged candidate set lacks column `n` whenever both
inputs lack it and it is not the offset column. -/
theorem candidate_not_hasCol (L R : DFrame) (hard : List String)
    (fl fr off : String) (how : JoinHow) (n : String)
    (hL : ∀ r ∈ L.rows, rowHasCol r n = false)
    (hR : ∀ r ∈ R.rows, rowHasCol r n = false)
    (hRc : n ∉ R.cols) (hoff : off ≠ n) :
    ∀ r ∈ (candidateSet L R hard fl fr off how).rows,
      rowHasCol r n = false := by
  intro r hr
  obtain ⟨m, hm, rfl⟩ := List.mem_map.mp hr
  rw [rowHasCol_set]
  have hoffn : (off == n) = false := by
    rw [beq_eq_false_iff_ne]
    exact hoff
  rw [hoffn, Bool.or_false]
  obtain ⟨l, hl, hcase⟩ := mem_mergedRows hm
  rcases hcase with ⟨rr, hrr, _, hmr⟩ | hmr
  · subst hmr
    rw [rowHasCol_append, hL l hl, Bool.false_or]
    exact rowHasCol_filter_false (hR rr hrr)
  · subst hmr
    rw [rowHasCol_append, hL l hl, Bool.false_or]
    exact rowHasCol_nullRight_false hRc

/-- C1 (counterexample): one left row with subject 1 and a NULL visit
date, one matching right row. The merged candidate is the unique member of
its group, and its (null) absolute offset is trivially the group minimum
— every candidate of its group has a null offset — so the claim requires
it to survive; but the group-by excludes rows with a null group key
(`dropna=True`), their rank is null, the `== 1` mask fails, and the output
is empty. -/
theorem C1_keeps_group_minima_counterexample :
    ¬ ((fuzzy_join_date
        ⟨["subject_id", "neurobooth_visit_dates"],
         [[("subject_id", some 1), ("neurobooth_visit_dates", none)]]⟩
        ⟨["subject_id", "end_time_demographic"],
         [[("subject_id", some 1), ("end_time_demographic", some 0)]]⟩
        ["subject_id"] "neurobooth_visit_dates" "end_time_demographic"
        "demographic_offset_days" JoinHow.left).rows
      = (candidateSet
          ⟨["subject_id", "neurobooth_visit_dates"],
           [[("subject_id", some 1), ("neurobooth_visit_dates", none)]]⟩
          ⟨["subject_id", "end_time_demographic"],
           [[("subject_id", some 1), ("end_time_demographic", some 0)]]⟩
          ["subject_id"] "neurobooth_visit_dates" "end_time_demographic"
          "demographic_offset_days" JoinHow.left).rows.filter
          (fun r => bestInGroup ["subject_id"] "neurobooth_visit_dates"
            "demographic_offset_days"
            (candidateSet
              ⟨["subject_id", "neurobooth_visit_dates"],
               [[("subject_id", some 1), ("neurobooth_visit_dates", none)]]⟩
              ⟨["subject_id", "end_time_demographic"],
               [[("subject_id", some 1), ("end_time_demographic", some 0)]]⟩
              ["subject_id"] "neurobooth_visit_dates" "end_time_demographic"
              "demographic_offset_days" JoinHow.left).rows r)) := by
  decide

/-- C1 (amended): provided neither input table carries the reserved
`__Rank__` column name (C10 covers that collision) and the offset column
is fresh, `fuzzy_join_date` keeps exactly the candidate rows that have a
minimal absolute offset within their `(hard_on, left date)` group AND a
null-free group key: within each retained group a unique minimum survives
alone, candidates tying at the minimal absolute offset all survive, and a
null-offset row survives only in an all-null group; candidates whose
hard-key or left-date value is null are dropped unconditionally. -/
theorem C1_keeps_group_minima (L R : DFrame) (hard : List String)
    (fl fr off : String) (how : JoinHow)
    (hL : ∀ r ∈ L.rows, rowHasCol r rankColName = false)
    (hR : ∀ r ∈ R.rows, rowHasCol r rankColName = false)
    (hRc : rankColName ∉ R.cols) (hoff : off ≠ rankColName)
    (hfl : fl ≠ rankColName) (hhard : ∀ c ∈ hard, c ≠ rankColName) :
    (fuzzy_join_date L R hard fl fr off how).rows
      = (candidateSet L R hard fl fr off how).rows.filter
          (fun r => !(hasNullKey hard fl r)
            && bestInGroup hard fl off
              (candidateSet L R hard fl fr off how).rows r) :=
  fuzzy_survivors_eq L R hard fl fr off how
    (candidate_not_hasCol L R hard fl fr off how rankColName hL hR hRc hoff)
    hfl hhard

theorem C1_keeps_group_minima_witness :
    ((∀ r ∈ (⟨["subject_id", "neurobooth_visit_dates"],
        [[("subject_id", some 1), ("neurobooth_visit_dates", some 10)]]⟩
          : DFrame).rows, rowHasCol r rankColName = false)
      ∧ (∀ r ∈ (⟨["subject_id", "end_time_demographic"],
          [[("subject_id", some 1), ("end_time_demographic", some 8)],
           [("subject_id", some 1), ("end_time_demographic", some 12)]]⟩
            : DFrame).rows, rowHasCol r rankColName = false)
      ∧ rankColName ∉ ["subject_id", "end_time_demographic"]
      ∧ "demographic_offset_days" ≠ rankColName
      ∧ "neurobooth_visit_dates" ≠ rankColName
      ∧ (∀ c ∈ ["subject_id"], c ≠ rankColName))
    ∧ (fuzzy_join_date
        ⟨["subject_id", "neurobooth_visit_dates"],
         [[("subject_id", some 1), ("neurobooth_visit_dates", some 10)]]⟩
        ⟨["subject_id", "end_time_demographic"],
         [[("subject_id", some 1), ("end_time_demographic", some 8)],
          [("subject_id", some 1), ("end_time_demographic", some 12)]]⟩
        ["subject_id"] "neurobooth_visit_dates" "end_time_demographic"
        "demographic_offset_days" JoinHow.left).rows
      = (candidateSet
          ⟨["subject_id", "neurobooth_visit_dates"],
           [[("subject_id", some 1), ("neurobooth_visit_dates", some 10)]]⟩
          ⟨["subject_id", "end_time_demographic"],
           [[("subject_id", some 1), ("end_time_demographic", some 8)],
            [("subject_id", some 1), ("end_time_demographic", some 12)]]⟩
          ["subject_id"] "neurobooth_visit_dates" "end_time_demographic"
          "demographic_offset_days" JoinHow.left).rows.filter
          (fun r => !(hasNullKey ["subject_id"] "neurobooth_visit_dates" r)
            && bestInGroup ["subject_id"] "neurobooth_visit_dates"
              "demographic_offset_days"
              (candidateSet
                ⟨["subject_id", "neurobooth_visit_dates"],
                 [[("subject_id", some 1), ("neurobooth_visit_dates", some 10)]]⟩
                ⟨["subject_id", "end_time_demographic"],
                 [[("subject_id", some 1), ("end_time_demographic", some 8)],
                  [("subject_id", some 1), ("end_time_demographic", some 12)]]⟩
                ["subject_id"] "neurobooth_visit_dates" "end_time_demographic"
                "demographic_offset_days" JoinHow.left).rows r) :=
  ⟨⟨by decide, by decide, by decide, by decide, by decide, by decide⟩,
   C1_keeps_group_minima
     ⟨["subject_id", "neurobooth_visit_dates"],
      [[("subject_id", some 1), ("neurobooth_visit_dates", some 10)]]⟩
     ⟨["subject_id", "end_time_demographic"],
      [[("subject_id", some 1), ("end_time_demographic", some 8)],
       [("subject_id", some 1), ("end_time_demographic", some 12)]]⟩
     ["subject_id"] "neurobooth_visit_dates" "end_time_demographic"
     "demographic_offset_days" JoinHow.left (by decide) (by decide)
     (by decide) (by decide) (by decide) (by decide)⟩

/-! ## C7: the offset column stores the signed day difference -/

/-- Any hard-key match of a left and right row yields a merged row. -/
theorem mergedRows_mem_of_match {how : JoinHow} {hard : List String}
    {L R : DFrame} {l rr : Row} (hl : l ∈ L.rows) (hrr : rr ∈ R.rows)
    (hmk : matchKeys hard l rr = true) :
    l ++ stripHard hard rr ∈ mergedRowsOf how hard L R := by
  unfold mergedRowsOf
  apply List.mem_flatMap.mpr
  refine ⟨l, hl, ?_⟩
  have hmem : rr ∈ R.rows.filter (matchKeys hard l) :=
    List.mem_filter.mpr ⟨hrr, hmk⟩
  cases how with
  | inner => exact List.mem_map.mpr ⟨rr, hmem, rfl⟩
  | left =>
    have hne : (R.rows.filter (matchKeys hard l)).isEmpty = false := by
      rcases hI : (R.rows.filter (matchKeys hard l)).isEmpty with _ | _
      · rfl
      · rw [List.isEmpty_iff] at hI
        rw [hI] at hmem
        simp at hmem
    rw [hne]
    simp only [Bool.false_eq_true, if_false]
    exact List.mem_map.mpr ⟨rr, hmem, rfl⟩

/-- Stripping the hard-key columns does not change a non-key column. -/
theorem rowGet_stripHard {hard : List String} {rr : Row} {fr : String}
    (h : fr ∉ hard) : rowGet (stripHard hard rr) fr = rowGet rr fr := by
  unfold stripHard
  induction rr with
  | nil => rfl
  | cons p r ih =>
    rcases hc : (hard.contains p.1) with _ | _
    · simp only [List.filter_cons, hc, Bool.not_false, if_true, rowGet]
      rcases hb : (p.1 == fr) with _ | _
      · simp only [hb, Bool.false_eq_true, if_false]
        exact ih
      · simp only [hb, if_true]
    · have hb : (p.1 == fr) = false := by
        rw [beq_eq_false_iff_ne]
        intro he
        apply h
        rw [← he]
        simpa using hc
      simp only [List.filter_cons, hc, Bool.not_true, Bool.false_eq_true,
        if_false, rowGet, hb]
      exact ih

/-- C7: every candidate row stores, in the offset column, the
null-propagating difference `right_date - left_date`; for a matched pair
with non-null dates this is exactly the signed rational (fractional-day)
difference, negative whenever the right date precedes the left date. -/
theorem C7_offset_signed_difference (L R : DFrame) (hard : List String)
    (fl fr off : String) (how : JoinHow)
    (hoffl : off ≠ fl) (hoffr : off ≠ fr)
    (hLfl : ∀ r ∈ L.rows, rowHasCol r fl = true)
    (hLfr : ∀ r ∈ L.rows, rowHasCol r fr = false)
    (hfrh : fr ∉ hard) :
    (∀ r ∈ (candidateSet L R hard fl fr off how).rows,
        rowGet r off = cellSub (rowGet r fr) (rowGet r fl))
    ∧ (∀ l ∈ L.rows, ∀ rr ∈ R.rows, matchKeys hard l rr = true →
        ∃ r ∈ (candidateSet L R hard fl fr off how).rows,
          rowGet r off = cellSub (rowGet rr fr) (rowGet l fl)
          ∧ ∀ ld rd : ℚ, rowGet l fl = some ld → rowGet rr fr = some rd →
              rowGet r off = some (rd - ld) ∧ (rd < ld → rd - ld < 0)) := by
  constructor
  · intro r hr
    obtain ⟨m, _, rfl⟩ := List.mem_map.mp hr
    rw [rowGet_set_same, rowGet_set_of_ne (fun h => hoffr h.symm),
      rowGet_set_of_ne (fun h => hoffl h.symm)]
  · intro l hl rr hrr hmk
    have hm : l ++ stripHard hard rr ∈ mergedRowsOf how hard L R :=
      mergedRows_mem_of_match hl hrr hmk
    refine ⟨rowSet (l ++ stripHard hard rr) off
      (cellSub (rowGet (l ++ stripHard hard rr) fr)
        (rowGet (l ++ stripHard hard rr) fl)), ?_, ?_⟩
    · exact List.mem_map.mpr ⟨l ++ stripHard hard rr, hm, rfl⟩
    · have hfr : rowGet (l ++ stripHard hard rr) fr = rowGet rr fr := by
        rw [rowGet_append_of_not_hasCol (hLfr l hl), rowGet_stripHard hfrh]
      have hfl2 : rowGet (l ++ stripHard hard rr) fl = rowGet l fl :=
        rowGet_append_of_hasCol (hLfl l hl)
      rw [rowGet_set_same, hfr, hfl2]
      refine ⟨rfl, ?_⟩
      intro ld rd hld hrd
      rw [hld, hrd]
      exact ⟨rfl, fun hlt => sub_neg.mpr hlt⟩

theorem C7_offset_signed_difference_witness :
    ("demographic_offset_days" ≠ "neurobooth_visit_dates"
      ∧ "demographic_offset_days" ≠ "end_time_demographic"
      ∧ (∀ r ∈ (⟨["subject_id", "neurobooth_visit_dates"],
          [[("subject_id", some 1), ("neurobooth_visit_dates", some 10)]]⟩
            : DFrame).rows,
          rowHasCol r "neurobooth_visit_dates" = true)
      ∧ (∀ r ∈ (⟨["subject_id", "neurobooth_visit_dates"],
          [[("subject_id", some 1), ("neurobooth_visit_dates", some 10)]]⟩
            : DFrame).rows,
          rowHasCol r "end_time_demographic" = false)
      ∧ "end_time_demographic" ∉ ["subject_id"])
    ∧ ((∀ r ∈ (candidateSet
          ⟨["subject_id", "neurobooth_visit_dates"],
           [[("subject_id", some 1), ("neurobooth_visit_dates", some 10)]]⟩
          ⟨["subject_id", "end_time_demographic"],
           [[("subject_id", some 1), ("end_time_demographic", some 8)]]⟩
          ["subject_id"] "neurobooth_visit_dates" "end_time_demographic"
          "demographic_offset_days" JoinHow.left).rows,
        rowGet r "demographic_offset_days"
          = cellSub (rowGet r "end_time_demographic")
              (rowGet r "neurobooth_visit_dates"))
      ∧ (∀ l ∈ (⟨["subject_id", "neurobooth_visit_dates"],
          [[("subject_id", some 1), ("neurobooth_visit_dates", some 10)]]⟩
            : DFrame).rows,
          ∀ rr ∈ (⟨["subject_id", "end_time_demographic"],
            [[("subject_id", some 1), ("end_time_demographic", some 8)]]⟩
              : DFrame).rows,
          matchKeys ["subject_id"] l rr = true →
          ∃ r ∈ (candidateSet
              ⟨["subject_id", "neurobooth_visit_dates"],
               [[("subject_id", some 1), ("neurobooth_visit_dates", some 10)]]⟩
              ⟨["subject_id", "end_time_demographic"],
               [[("subject_id", some 1), ("end_time_demographic", some 8)]]⟩
              ["subject_id"] "neurobooth_visit_dates" "end_time_demographic"
              "demographic_offset_days" JoinHow.left).rows,
            rowGet r "demographic_offset_days"
              = cellSub (rowGet rr "end_time_demographic")
                  (rowGet l "neurobooth_visit_dates")
            ∧ ∀ ld rd : ℚ,
                rowGet l "neurobooth_visit_dates" = some ld →
                rowGet rr "end_time_demographic" = some rd →
                rowGet r "demographic_offset_days" = some (rd - ld)
                  ∧ (rd < ld → rd - ld < 0))) :=
  ⟨⟨by decide, by decide, by decide, by decide, by decide⟩,
   C7_offset_signed_difference
     ⟨["subject_id", "neurobooth_visit_dates"],
      [[("subject_id", some 1), ("neurobooth_visit_dates", some 10)]]⟩
     ⟨["subject_id", "end_time_demographic"],
      [[("subject_id", some 1), ("end_time_demographic", some 8)]]⟩
     ["subject_id"] "neurobooth_visit_dates" "end_time_demographic"
     "demographic_offset_days" JoinHow.left (by decide) (by decide)
     (by decide) (by decide) (by decide)⟩

/-! ## C10: the output columns and the `__Rank__` collision -/

theorem contains_eq_false_of_not_mem {l : List String} {a : String}
    (h : a ∉ l) : l.contains a = false := by
  rw [Bool.eq_false_iff]
  intro hc
  exact h (by simpa using hc)

theorem filter_ne_of_forall_ne {l : List String} {a : String}
    (h : ∀ c ∈ l, c ≠ a) : l.filter (fun c => c != a) = l := by
  apply List.filter_eq_self.mpr
  intro c hc
  simp only [bne_iff_ne, ne_eq]
  exact h c hc

/-- C10: with fresh `__Rank__` and offset names, the output columns are
exactly the merge's columns plus the offset column; the internal
`__Rank__` column never survives to the output, so a pre-existing
`__Rank__` input column is overwritten by the rank helper and dropped —
its data is lost, as the concrete instance shows: two inputs differing
only in their `__Rank__` values produce identical outputs. -/
theorem C10_output_columns (L R : DFrame) (hard : List String)
    (fl fr off : String) (how : JoinHow) :
    ((rankColName ∉ L.cols ∧ rankColName ∉ R.cols ∧ off ∉ L.cols
        ∧ off ∉ R.cols ∧ off ≠ rankColName) →
      (fuzzy_join_date L R hard fl fr off how).cols
        = (merge how hard L R).cols ++ [off])
    ∧ rankColName ∉ (fuzzy_join_date L R hard fl fr off how).cols
    ∧ (fuzzy_join_date
        ⟨["subject_id", "__Rank__", "neurobooth_visit_dates"],
         [[("subject_id", some 1), ("__Rank__", some 5),
           ("neurobooth_visit_dates", some 10)]]⟩
        ⟨["subject_id", "end_time_demographic"],
         [[("subject_id", some 1), ("end_time_demographic", none)]]⟩
        ["subject_id"] "neurobooth_visit_dates" "end_time_demographic"
        "demographic_offset_days" JoinHow.left
      = fuzzy_join_date
          ⟨["subject_id", "__Rank__", "neurobooth_visit_dates"],
           [[("subject_id", some 1), ("__Rank__", some 77),
             ("neurobooth_visit_dates", some 10)]]⟩
          ⟨["subject_id", "end_time_demographic"],
           [[("subject_id", some 1), ("end_time_demographic", none)]]⟩
          ["subject_id"] "neurobooth_visit_dates" "end_time_demographic"
          "demographic_offset_days" JoinHow.left
      ∧ (fuzzy_join_date
          ⟨["subject_id", "__Rank__", "neurobooth_visit_dates"],
           [[("subject_id", some 1), ("__Rank__", some 5),
             ("neurobooth_visit_dates", some 10)]]⟩
          ⟨["subject_id", "end_time_demographic"],
           [[("subject_id", some 1), ("end_time_demographic", none)]]⟩
          ["subject_id"] "neurobooth_visit_dates" "end_time_demographic"
          "demographic_offset_days" JoinHow.left).rows ≠ []) := by
  refine ⟨?_, ?_, by decide, by decide⟩
  · rintro ⟨hrL, hrR, hoL, hoR, hor⟩
    have hoffmem : off ∉ (merge how hard L R).cols := by
      intro hmem
      rcases List.mem_append.mp hmem with h | h
      · exact hoL h
      · exact hoR (List.mem_of_mem_filter h)
    have hcand : (candidateSet L R hard fl fr off how).cols
        = (merge how hard L R).cols ++ [off] := by
      show (if (merge how hard L R).cols.contains off
        then (merge how hard L R).cols
        else (merge how hard L R).cols ++ [off]) = _
      rw [contains_eq_false_of_not_mem hoffmem]
      simp
    have hrankmem : rankColName ∉ (candidateSet L R hard fl fr off how).cols := by
      rw [hcand]
      intro hmem
      rcases List.mem_append.mp hmem with h | h
      · rcases List.mem_append.mp h with h2 | h2
        · exact hrL h2
        · exact hrR (List.mem_of_mem_filter h2)
      · simp only [List.mem_singleton] at h
        exact hor h.symm
    have habs : (absStage L R hard fl fr off how).cols
        = (candidateSet L R hard fl fr off how).cols ++ [rankColName] := by
      show (if (candidateSet L R hard fl fr off how).cols.contains rankColName
        then (candidateSet L R hard fl fr off how).cols
        else (candidateSet L R hard fl fr off how).cols ++ [rankColName]) = _
      rw [contains_eq_false_of_not_mem hrankmem]
      simp
    show ((absStage L R hard fl fr off how).cols.filter
      (fun c => c != rankColName)) = _
    rw [habs, List.filter_append]
    have h1 : List.filter (fun c => c != rankColName) [rankColName] = [] := by
      simp
    rw [h1, List.append_nil]
    rw [filter_ne_of_forall_ne (fun c hc he => hrankmem (by
      rw [← he]
      exact hc))]
    exact hcand
  · intro hmem
    have h2 := List.of_mem_filter hmem
    simp [bne] at h2

theorem C10_output_columns_witness :
    (rankColName ∉ ["subject_id", "neurobooth_visit_dates"]
      ∧ rankColName ∉ ["subject_id", "end_time_demographic"]
      ∧ "demographic_offset_days" ∉ ["subject_id", "neurobooth_visit_dates"]
      ∧ "demographic_offset_days" ∉ ["subject_id", "end_time_demographic"]
      ∧ "demographic_offset_days" ≠ rankColName)
    ∧ (fuzzy_join_date
        ⟨["subject_id", "neurobooth_visit_dates"], []⟩
        ⟨["subject_id", "end_time_demographic"], []⟩
        ["subject_id"] "neurobooth_visit_dates" "end_time_demographic"
        "demographic_offset_days" JoinHow.left).cols
      = (merge JoinHow.left ["subject_id"]
          ⟨["subject_id", "neurobooth_visit_dates"], []⟩
          ⟨["subject_id", "end_time_demographic"], []⟩).cols
        ++ ["demographic_offset_days"] :=
  ⟨⟨by decide, by decide, by decide, by decide, by decide⟩,
   (C10_output_columns
     ⟨["subject_id", "neurobooth_visit_dates"], []⟩
     ⟨["subject_id", "end_time_demographic"], []⟩
     ["subject_id"] "neurobooth_visit_dates" "end_time_demographic"
     "demographic_offset_days" JoinHow.left).1
     ⟨by decide, by decide, by decide, by decide, by decide⟩⟩

/-! ## C4, C5: left-join row preservation

Machinery: the candidate rows of a left join split into per-left-row
blocks, and the multiset of absolute offsets of a block depends only on
the left row's hard-key values and date, so a block-minimal candidate is
minimal in its whole group. -/

/-- The candidate rows a left-outer `fuzzy_join_date` derives from one
left row: its hard-key matches (or the null padding), each extended with
the offset column. -/
def leftBlock (R : DFrame) (hard : List String) (fl fr off : String)
    (l : Row) : List Row :=
  (if (R.rows.filter (matchKeys hard l)).isEmpty
   then [l ++ nullRightRow hard R.cols]
   else
     (R.rows.filter (matchKeys hard l)).map
       (fun rr => l ++ stripHard hard rr)).map
    (fun m => rowSet m off (cellSub (rowGet m fr) (rowGet m fl)))

/-- The multiset of absolute offsets any left row with hard-key values
`kv` and date `d` contributes. -/
def blockOffsets (R : DFrame) (hard : List String) (fr : String)
    (kv : List Cell) (d : Cell) : List Cell :=
  if (R.rows.filter (fun rr => kv == hard.map (rowGet rr))).isEmpty
  then [none]
  else
    (R.rows.filter (fun rr => kv == hard.map (rowGet rr))).map
      (fun rr => cellAbs (cellSub (rowGet rr fr) d))

/-- No `(hard_on, left date)` group of the candidate set has two rows that
both attain the minimal absolute offset (the claim's "no tie" side
condition). -/
def tieFree (hard : List String) (fl off : String) (rows : List Row) :
    Prop :=
  ∀ r ∈ rows,
    rows.countP (fun r2 => (groupKeyOf hard fl r2 == groupKeyOf hard fl r)
      && bestInGroup hard fl off rows r2) ≤ 1

instance tieFreeDecidable (hard : List String) (fl off : String)
    (rows : List Row) : Decidable (tieFree hard fl off rows) := by
  unfold tieFree
  infer_instance

theorem candidateSet_left_rows (L R : DFrame) (hard : List String)
    (fl fr off : String) :
    (candidateSet L R hard fl fr off JoinHow.left).rows
      = L.rows.flatMap (leftBlock R hard fl fr off) := by
  show ((mergedRowsOf JoinHow.left hard L R).map
    (fun r => rowSet r off (cellSub (rowGet r fr) (rowGet r fl)))) = _
  unfold mergedRowsOf leftBlock
  rw [List.map_flatMap]

theorem rowGet_nullRight {hard rcols : List String} {c : String} :
    rowGet (nullRightRow hard rcols) c = none := by
  unfold nullRightRow
  induction rightOnlyCols hard rcols with
  | nil => rfl
  | cons a l ih =>
    simp only [List.map_cons, rowGet]
    rcases hb : (a == c) with _ | _
    · simp only [hb, Bool.false_eq_true, if_false]
      exact ih
    · simp only [hb, if_true]

theorem matchKeys_eq_beq (hard : List String) (l rr : Row) :
    matchKeys hard l rr = (hard.map (rowGet l) == hard.map (rowGet rr)) := by
  induction hard with
  | nil => rfl
  | cons c hard ih =>
    unfold matchKeys at *
    simp only [List.all_cons, List.map_cons, List.cons_beq_cons, ih]

theorem ltCell_irrefl (c : Cell) : ltCell c c = false := by
  cases c with
  | none => rfl
  | some a => simp [ltCell]

theorem ltCell_trans {x a m : Cell} (h1 : ltCell x a = true)
    (h2 : ltCell a m = true) : ltCell x m = true := by
  cases x with
  | none => simp [ltCell] at h1
  | some xv =>
    cases a with
    | none => simp [ltCell] at h2
    | some av =>
      cases m with
      | none => rfl
      | some mv =>
        simp only [ltCell, decide_eq_true_eq] at *
        exact lt_trans h1 h2

theorem exists_min_ltCell {α : Type} (f : α → Cell) (l : List α)
    (h : l ≠ []) : ∃ m ∈ l, ∀ x ∈ l, ltCell (f x) (f m) = false := by
  induction l with
  | nil => exact absurd rfl h
  | cons a l ih =>
    rcases l with _ | ⟨b, l'⟩
    · refine ⟨a, List.mem_singleton_self a, ?_⟩
      intro x hx
      rw [List.mem_singleton] at hx
      subst hx
      exact ltCell_irrefl (f x)
    · obtain ⟨m, hm, hmin⟩ := ih (by simp)
      rcases hlt : ltCell (f a) (f m) with _ | _
      · refine ⟨m, List.mem_cons_of_mem a hm, ?_⟩
        intro x hx
        rcases List.mem_cons.mp hx with hx | hx
        · subst hx
          exact hlt
        · exact hmin x hx
      · refine ⟨a, List.mem_cons_self a _, ?_⟩
        intro x hx
        rcases List.mem_cons.mp hx with hx | hx
        · subst hx
          exact ltCell_irrefl (f x)
        · rw [Bool.eq_false_iff]
          intro hxa
          have := ltCell_trans hxa hlt
          rw [hmin x hx] at this
          simp at this

/-- Well-formedness of a left-join call: rows carry exactly their frame's
columns, the join columns exist on the proper sides, and the offset column
name is fresh (as in `download`'s calls). -/
structure LeftJoinWF (L R : DFrame) (hard : List String)
    (fl fr off : String) : Prop where
  wfL : ∀ r ∈ L.rows, rowKeys r = L.cols
  wfR : ∀ r ∈ R.rows, rowKeys r = R.cols
  flL : fl ∈ L.cols
  hardL : ∀ c ∈ hard, c ∈ L.cols
  offL : off ∉ L.cols
  offR : off ∉ R.cols
  frL : fr ∉ L.cols
  frHard : fr ∉ hard

theorem wf_hasCol_true {r : Row} {cols : List String} {c : String}
    (hwf : rowKeys r = cols) (hc : c ∈ cols) : rowHasCol r c = true := by
  rw [rowHasCol_iff_mem_keys, hwf]
  exact hc

theorem wf_hasCol_false {r : Row} {cols : List String} {c : String}
    (hwf : rowKeys r = cols) (hc : c ∉ cols) : rowHasCol r c = false := by
  rw [Bool.eq_false_iff]
  intro h
  rw [rowHasCol_iff_mem_keys, hwf] at h
  exact hc h

theorem cellSub_none_left {d : Cell} : cellSub none d = none := by
  cases d <;> rfl

theorem groupKeyOf_append_left {hard : List String} {fl : String}
    {l t : Row} (hfl : rowHasCol l fl = true)
    (hh : ∀ c ∈ hard, rowHasCol l c = true) :
    groupKeyOf hard fl (l ++ t) = groupKeyOf hard fl l := by
  unfold groupKeyOf
  apply List.map_congr_left
  intro c hc
  rcases List.mem_append.mp hc with h | h
  · exact rowGet_append_of_hasCol (hh c h)
  · simp only [List.mem_singleton] at h
    subst h
    exact rowGet_append_of_hasCol hfl

theorem filter_matchKeys_eq (R : DFrame) (hard : List String) (l : Row) :
    R.rows.filter (matchKeys hard l)
      = R.rows.filter
          (fun rr => hard.map (rowGet l) == hard.map (rowGet rr)) := by
  apply List.filter_congr
  intro rr _
  rw [matchKeys_eq_beq]

/-- Structure of a block member: it extends its left row, shares its group
key, and contributes one of the block's offsets. -/
theorem leftBlock_member {L R : DFrame} {hard : List String}
    {fl fr off : String} (h : LeftJoinWF L R hard fl fr off)
    {l : Row} (hl : l ∈ L.rows) {r : Row}
    (hr : r ∈ leftBlock R hard fl fr off l) :
    (∃ t : Row, r = l ++ t)
    ∧ groupKeyOf hard fl r = groupKeyOf hard fl l
    ∧ absOffset off r
        ∈ blockOffsets R hard fr (hard.map (rowGet l)) (rowGet l fl) := by
  have hwl := h.wfL l hl
  have hfl : rowHasCol l fl = true := wf_hasCol_true hwl h.flL
  have hhard : ∀ c ∈ hard, rowHasCol l c = true :=
    fun c hc => wf_hasCol_true hwl (h.hardL c hc)
  have hloff : rowHasCol l off = false := wf_hasCol_false hwl h.offL
  have hlfr : rowHasCol l fr = false := wf_hasCol_false hwl h.frL
  unfold leftBlock at hr
  obtain ⟨m, hm, rfl⟩ := List.mem_map.mp hr
  have hset : ∀ X : Row, rowHasCol X off = false →
      rowSet (l ++ X) off (cellSub (rowGet (l ++ X) fr) (rowGet (l ++ X) fl))
        = l ++ (X ++ [(off, cellSub (rowGet (l ++ X) fr) (rowGet (l ++ X) fl))]) := by
    intro X hX
    rw [rowSet_of_not_hasCol (by rw [rowHasCol_append, hloff, hX]; rfl),
      List.append_assoc]
  rcases hempty : (R.rows.filter (matchKeys hard l)).isEmpty with _ | _
  · rw [hempty] at hm
    simp only [Bool.false_eq_true, if_false] at hm
    obtain ⟨rr, hrr, hmr⟩ := List.mem_map.mp hm
    have hrrR : rr ∈ R.rows := List.mem_of_mem_filter hrr
    have hXoff : rowHasCol (stripHard hard rr) off = false :=
      rowHasCol_filter_false (wf_hasCol_false (h.wfR rr hrrR) h.offR)
    subst hmr
    have hgfr : rowGet (l ++ stripHard hard rr) fr = rowGet rr fr := by
      rw [rowGet_append_of_not_hasCol hlfr, rowGet_stripHard h.frHard]
    have hgfl : rowGet (l ++ stripHard hard rr) fl = rowGet l fl :=
      rowGet_append_of_hasCol hfl
    refine ⟨⟨_, hset (stripHard hard rr) hXoff⟩, ?_, ?_⟩
    · rw [hset (stripHard hard rr) hXoff]
      exact groupKeyOf_append_left hfl hhard
    · unfold absOffset
      rw [rowGet_set_same, hgfr, hgfl]
      unfold blockOffsets
      rw [← filter_matchKeys_eq, hempty]
      simp only [Bool.false_eq_true, if_false]
      exact List.mem_map.mpr ⟨rr, hrr, rfl⟩
  · rw [hempty] at hm
    simp only [if_true, List.mem_singleton] at hm
    have hXoff : rowHasCol (nullRightRow hard R.cols) off = false :=
      rowHasCol_nullRight_false h.offR
    subst hm
    have hgfr : rowGet (l ++ nullRightRow hard R.cols) fr = none := by
      rw [rowGet_append_of_not_hasCol hlfr, rowGet_nullRight]
    refine ⟨⟨_, hset (nullRightRow hard R.cols) hXoff⟩, ?_, ?_⟩
    · rw [hset (nullRightRow hard R.cols) hXoff]
      exact groupKeyOf_append_left hfl hhard
    · unfold absOffset
      rw [rowGet_set_same, hgfr, cellSub_none_left]
      unfold blockOffsets
      rw [← filter_matchKeys_eq, hempty]
      simp [cellAbs]

theorem leftBlock_ne_nil {R : DFrame} {hard : List String}
    {fl fr off : String} {l : Row} :
    leftBlock R hard fl fr off l ≠ [] := by
  unfold leftBlock
  intro hcon
  rw [List.map_eq_nil_iff] at hcon
  rcases hempty : (R.rows.filter (matchKeys hard l)).isEmpty with _ | _
  · rw [hempty] at hcon
    simp only [Bool.false_eq_true, if_false, List.map_eq_nil_iff] at hcon
    rw [hcon] at hempty
    simp at hempty
  · rw [hempty] at hcon
    simp only [if_true] at hcon
    simp at hcon

/-- A block's offsets are exactly `blockOffsets` of its left row's key and
date. -/
theorem leftBlock_offsets {L R : DFrame} {hard : List String}
    {fl fr off : String} (h : LeftJoinWF L R hard fl fr off)
    {l : Row} (hl : l ∈ L.rows) :
    (leftBlock R hard fl fr off l).map (absOffset off)
      = blockOffsets R hard fr (hard.map (rowGet l)) (rowGet l fl) := by
  have hwl := h.wfL l hl
  have hfl : rowHasCol l fl = true := wf_hasCol_true hwl h.flL
  have hloff : rowHasCol l off = false := wf_hasCol_false hwl h.offL
  have hlfr : rowHasCol l fr = false := wf_hasCol_false hwl h.frL
  unfold leftBlock blockOffsets
  rw [← filter_matchKeys_eq]
  rcases hempty : (R.rows.filter (matchKeys hard l)).isEmpty with _ | _
  · simp only [Bool.false_eq_true, if_false, List.map_map]
    apply List.map_congr_left
    intro rr hrr
    have hrrR : rr ∈ R.rows := List.mem_of_mem_filter hrr
    simp only [Function.comp_apply]
    unfold absOffset
    rw [rowGet_set_same, rowGet_append_of_not_hasCol hlfr,
      rowGet_stripHard h.frHard, rowGet_append_of_hasCol hfl]
  · simp only [if_true, List.map_cons, List.map_nil]
    unfold absOffset
    rw [rowGet_set_same, rowGet_append_of_not_hasCol hlfr, rowGet_nullRight,
      cellSub_none_left]
    rfl

/-- Any candidate in the same group as left row `l` draws its absolute
offset from `l`'s `blockOffsets`. -/
theorem absOffset_mem_of_group {L R : DFrame} {hard : List String}
    {fl fr off : String} (h : LeftJoinWF L R hard fl fr off)
    {l : Row} (hl : l ∈ L.rows) {r' : Row}
    (hr' : r' ∈ (candidateSet L R hard fl fr off JoinHow.left).rows)
    (hg : groupKeyOf hard fl r' = groupKeyOf hard fl l) :
    absOffset off r'
      ∈ blockOffsets R hard fr (hard.map (rowGet l)) (rowGet l fl) := by
  rw [candidateSet_left_rows] at hr'
  obtain ⟨l', hl', hrb⟩ := List.mem_flatMap.mp hr'
  have h3 := leftBlock_member h hl' hrb
  have hgl : groupKeyOf hard fl l' = groupKeyOf hard fl l :=
    h3.2.1.symm.trans hg
  have hkv : hard.map (rowGet l') = hard.map (rowGet l)
      ∧ rowGet l' fl = rowGet l fl := by
    unfold groupKeyOf at hgl
    rw [List.map_append, List.map_append] at hgl
    have hlen : (hard.map (rowGet l')).length
        = (hard.map (rowGet l)).length := by
      simp
    obtain ⟨h1, h2⟩ := List.append_inj hgl hlen
    refine ⟨h1, ?_⟩
    simpa using h2
  rw [← hkv.1, ← hkv.2]
  exact h3.2.2

/-- A block-minimal candidate is best in its whole group. -/
theorem bestInGroup_of_block_min {L R : DFrame} {hard : List String}
    {fl fr off : String} (h : LeftJoinWF L R hard fl fr off)
    {l : Row} (hl : l ∈ L.rows) {m : Row}
    (hm : m ∈ leftBlock R hard fl fr off l)
    (hmin : ∀ x ∈ leftBlock R hard fl fr off l,
      ltCell (absOffset off x) (absOffset off m) = false) :
    bestInGroup hard fl off
      (candidateSet L R hard fl fr off JoinHow.left).rows m = true := by
  unfold bestInGroup
  rw [List.all_eq_true]
  intro r2 hr2
  rcases hgk : (groupKeyOf hard fl r2 == groupKeyOf hard fl m) with _ | _
  · simp [hgk]
  · have hgkeq : groupKeyOf hard fl r2 = groupKeyOf hard fl m := by
      rwa [beq_iff_eq] at hgk
    have hgm := (leftBlock_member h hl hm).2.1
    have habs2 := absOffset_mem_of_group h hl hr2 (hgkeq.trans hgm)
    rw [← leftBlock_offsets h hl] at habs2
    obtain ⟨x, hx, hxe⟩ := List.mem_map.mp habs2
    have hxm := hmin x hx
    rw [hxe] at hxm
    simp [hgk, hxm]

theorem hasNullKey_congr {hard : List String} {fl : String} {r r' : Row}
    (hg : groupKeyOf hard fl r = groupKeyOf hard fl r') :
    hasNullKey hard fl r = hasNullKey hard fl r' := by
  unfold hasNullKey
  rw [hg]

/-- Each block of a left row with a null-free group key contains a
survivor of the rank filter. -/
theorem block_survivor_exists {L R : DFrame} {hard : List String}
    {fl fr off : String} (h : LeftJoinWF L R hard fl fr off)
    {l : Row} (hl : l ∈ L.rows) (hnn : hasNullKey hard fl l = false) :
    ∃ m ∈ leftBlock R hard fl fr off l,
      (!(hasNullKey hard fl m)
        && bestInGroup hard fl off
          (candidateSet L R hard fl fr off JoinHow.left).rows m) = true := by
  obtain ⟨m, hm, hmin⟩ :=
    exists_min_ltCell (absOffset off) (leftBlock R hard fl fr off l)
      leftBlock_ne_nil
  refine ⟨m, hm, ?_⟩
  have hnk : hasNullKey hard fl m = false := by
    rw [hasNullKey_congr (leftBlock_member h hl hm).2.1]
    exact hnn
  rw [hnk, bestInGroup_of_block_min h hl hm hmin]
  rfl

theorem sum_map_eq_length {α : Type} (L : List α) (g : α → ℕ)
    (h : ∀ a ∈ L, g a = 1) : (L.map g).sum = L.length := by
  induction L with
  | nil => rfl
  | cons a L ih =>
    simp only [List.map_cons, List.sum_cons, List.length_cons,
      h a (List.mem_cons_self a L)]
    rw [ih (fun b hb => h b (List.mem_cons_of_mem a hb))]
    omega

/-- C4 (counterexample): a left row with a null visit date is dropped
entirely — it has a matching right row, but the null group key voids its
rank — so it appears zero times in the output of a left join. -/
theorem C4_left_preservation_counterexample :
    ¬ (∀ l ∈ (⟨["subject_id", "neurobooth_visit_dates"],
        [[("subject_id", some 1), ("neurobooth_visit_dates", none)]]⟩
          : DFrame).rows,
        ∃ r ∈ (fuzzy_join_date
          ⟨["subject_id", "neurobooth_visit_dates"],
           [[("subject_id", some 1), ("neurobooth_visit_dates", none)]]⟩
          ⟨["subject_id", "end_time_demographic"],
           [[("subject_id", some 1), ("end_time_demographic", some 0)]]⟩
          ["subject_id"] "neurobooth_visit_dates" "end_time_demographic"
          "demographic_offset_days" JoinHow.left).rows,
          List.isPrefixOf l r = true) := by
  decide

/-- C4 (amended): for well-formed inputs with fresh helper columns in
which every left row has non-null hard keys and a non-null date, a
left-outer `fuzzy_join_date` emits at least one row extending each left
row; and when no group has a tie at the minimal absolute offset, the
output row count equals the left row count exactly. -/
theorem C4_left_join_preserves_rows (L R : DFrame) (hard : List String)
    (fl fr off : String) (h : LeftJoinWF L R hard fl fr off)
    (hLrank : rankColName ∉ L.cols) (hRrank : rankColName ∉ R.cols)
    (hoffrank : off ≠ rankColName)
    (hnn : ∀ l ∈ L.rows, hasNullKey hard fl l = false) :
    (∀ l ∈ L.rows, ∃ r ∈ (fuzzy_join_date L R hard fl fr off
        JoinHow.left).rows, ∃ t : Row, r = l ++ t)
    ∧ (tieFree hard fl off
        (candidateSet L R hard fl fr off JoinHow.left).rows →
      (fuzzy_join_date L R hard fl fr off JoinHow.left).rows.length
        = L.rows.length) := by
  have hno : ∀ r ∈ (candidateSet L R hard fl fr off JoinHow.left).rows,
      rowHasCol r rankColName = false :=
    candidate_not_hasCol L R hard fl fr off JoinHow.left rankColName
      (fun r hr => wf_hasCol_false (h.wfL r hr) hLrank)
      (fun r hr => wf_hasCol_false (h.wfR r hr) hRrank) hRrank hoffrank
  have hflrank : fl ≠ rankColName := fun he => hLrank (he ▸ h.flL)
  have hhardrank : ∀ c ∈ hard, c ≠ rankColName :=
    fun c hc he => hLrank (he ▸ h.hardL c hc)
  have hchar := fuzzy_survivors_eq L R hard fl fr off JoinHow.left hno
    hflrank hhardrank
  constructor
  · intro l hl
    obtain ⟨m, hm, hp⟩ := block_survivor_exists h hl (hnn l hl)
    refine ⟨m, ?_, (leftBlock_member h hl hm).1⟩
    rw [hchar]
    apply List.mem_filter.mpr
    refine ⟨?_, hp⟩
    rw [candidateSet_left_rows]
    exact List.mem_flatMap.mpr ⟨l, hl, hm⟩
  · intro htf
    have hrows := candidateSet_left_rows L R hard fl fr off
    rw [hchar, hrows, List.filter_flatMap, List.length_flatMap]
    rw [hrows] at htf
    apply sum_map_eq_length
    intro l hl
    simp only [Function.comp_apply]
    -- exactly one survivor per block
    obtain ⟨m, hm, hp⟩ := block_survivor_exists h hl (hnn l hl)
    rw [hrows] at hp
    have hmC : m ∈ L.rows.flatMap (leftBlock R hard fl fr off) :=
      List.mem_flatMap.mpr ⟨l, hl, hm⟩
    have hle : (List.filter
        (fun r => !hasNullKey hard fl r
          && bestInGroup hard fl off
            (L.rows.flatMap (leftBlock R hard fl fr off)) r)
        (leftBlock R hard fl fr off l)).length ≤ 1 := by
      rw [← List.countP_eq_length_filter]
      have step1 : (leftBlock R hard fl fr off l).countP
          (fun r => !hasNullKey hard fl r
            && bestInGroup hard fl off
              (L.rows.flatMap (leftBlock R hard fl fr off)) r)
          ≤ (leftBlock R hard fl fr off l).countP
            (fun r2 => (groupKeyOf hard fl r2 == groupKeyOf hard fl m)
              && bestInGroup hard fl off
                (L.rows.flatMap (leftBlock R hard fl fr off)) r2) := by
        apply List.countP_mono_left
        intro r2 hr2 hp2
        rw [Bool.and_eq_true] at hp2
        rw [Bool.and_eq_true]
        refine ⟨?_, hp2.2⟩
        rw [beq_iff_eq, (leftBlock_member h hl hr2).2.1,
          ← (leftBlock_member h hl hm).2.1]
      have step2 : (leftBlock R hard fl fr off l).countP
          (fun r2 => (groupKeyOf hard fl r2 == groupKeyOf hard fl m)
            && bestInGroup hard fl off
              (L.rows.flatMap (leftBlock R hard fl fr off)) r2)
          ≤ (L.rows.flatMap (leftBlock R hard fl fr off)).countP
            (fun r2 => (groupKeyOf hard fl r2 == groupKeyOf hard fl m)
              && bestInGroup hard fl off
                (L.rows.flatMap (leftBlock R hard fl fr off)) r2) := by
        rw [List.countP_eq_length_filter, List.countP_eq_length_filter,
          List.filter_flatMap, List.length_flatMap]
        apply List.single_le_sum (by
          intro x _
          exact Nat.zero_le x)
        exact List.mem_map.mpr ⟨l, hl, rfl⟩
      exact le_trans (le_trans step1 step2) (htf m hmC)
    have hge : 1 ≤ (List.filter
        (fun r => !hasNullKey hard fl r
          && bestInGroup hard fl off
            (L.rows.flatMap (leftBlock R hard fl fr off)) r)
        (leftBlock R hard fl fr off l)).length := by
      have hmem : m ∈ List.filter
          (fun r => !hasNullKey hard fl r
            && bestInGroup hard fl off
              (L.rows.flatMap (leftBlock R hard fl fr off)) r)
          (leftBlock R hard fl fr off l) := List.mem_filter.mpr ⟨hm, hp⟩
      have := List.length_pos.mpr (List.ne_nil_of_mem hmem)
      omega
    omega

theorem C4_left_join_preserves_rows_witness :
    (LeftJoinWF
        ⟨["subject_id", "neurobooth_visit_dates"],
         [[("subject_id", some 1), ("neurobooth_visit_dates", some 10)]]⟩
        ⟨["subject_id", "end_time_demographic"],
         [[("subject_id", some 1), ("end_time_demographic", none)]]⟩
        ["subject_id"] "neurobooth_visit_dates" "end_time_demographic"
        "demographic_offset_days"
      ∧ rankColName ∉ ["subject_id", "neurobooth_visit_dates"]
      ∧ rankColName ∉ ["subject_id", "end_time_demographic"]
      ∧ "demographic_offset_days" ≠ rankColName
      ∧ (∀ l ∈ (⟨["subject_id", "neurobooth_visit_dates"],
          [[("subject_id", some 1), ("neurobooth_visit_dates", some 10)]]⟩
            : DFrame).rows,
          hasNullKey ["subject_id"] "neurobooth_visit_dates" l = false)
      ∧ tieFree ["subject_id"] "neurobooth_visit_dates"
          "demographic_offset_days"
          (candidateSet
            ⟨["subject_id", "neurobooth_visit_dates"],
             [[("subject_id", some 1), ("neurobooth_visit_dates", some 10)]]⟩
            ⟨["subject_id", "end_time_demographic"],
             [[("subject_id", some 1), ("end_time_demographic", none)]]⟩
            ["subject_id"] "neurobooth_visit_dates" "end_time_demographic"
            "demographic_offset_days" JoinHow.left).rows)
    ∧ ((∀ l ∈ (⟨["subject_id", "neurobooth_visit_dates"],
          [[("subject_id", some 1), ("neurobooth_visit_dates", some 10)]]⟩
            : DFrame).rows,
        ∃ r ∈ (fuzzy_join_date
          ⟨["subject_id", "neurobooth_visit_dates"],
           [[("subject_id", some 1), ("neurobooth_visit_dates", some 10)]]⟩
          ⟨["subject_id", "end_time_demographic"],
           [[("subject_id", some 1), ("end_time_demographic", none)]]⟩
          ["subject_id"] "neurobooth_visit_dates" "end_time_demographic"
          "demographic_offset_days" JoinHow.left).rows,
          ∃ t : Row, r = l ++ t)
      ∧ (fuzzy_join_date
          ⟨["subject_id", "neurobooth_visit_dates"],
           [[("subject_id", some 1), ("neurobooth_visit_dates", some 10)]]⟩
          ⟨["subject_id", "end_time_demographic"],
           [[("subject_id", some 1), ("end_time_demographic", none)]]⟩
          ["subject_id"] "neurobooth_visit_dates" "end_time_demographic"
          "demographic_offset_days" JoinHow.left).rows.length
        = (⟨["subject_id", "neurobooth_visit_dates"],
            [[("subject_id", some 1), ("neurobooth_visit_dates", some 10)]]⟩
              : DFrame).rows.length) :=
  ⟨⟨⟨by decide, by decide, by decide, by decide, by decide, by decide,
      by decide, by decide⟩,
    by decide, by decide, by decide, by decide, by decide⟩,
   (C4_left_join_preserves_rows
     ⟨["subject_id", "neurobooth_visit_dates"],
      [[("subject_id", some 1), ("neurobooth_visit_dates", some 10)]]⟩
     ⟨["subject_id", "end_time_demographic"],
      [[("subject_id", some 1), ("end_time_demographic", none)]]⟩
     ["subject_id"] "neurobooth_visit_dates" "end_time_demographic"
     "demographic_offset_days"
     ⟨by decide, by decide, by decide, by decide, by decide, by decide,
      by decide, by decide⟩
     (by decide) (by decide) (by decide) (by decide)).1,
   (C4_left_join_preserves_rows
     ⟨["subject_id", "neurobooth_visit_dates"],
      [[("subject_id", some 1), ("neurobooth_visit_dates", some 10)]]⟩
     ⟨["subject_id", "end_time_demographic"],
      [[("subject_id", some 1), ("end_time_demographic", none)]]⟩
     ["subject_id"] "neurobooth_visit_dates" "end_time_demographic"
     "demographic_offset_days"
     ⟨by decide, by decide, by decide, by decide, by decide, by decide,
      by decide, by decide⟩
     (by decide) (by decide) (by decide) (by decide)).2 (by decide)⟩

/-! ## C5: unmatched left rows pass through the left join -/

/-- With no hard-key match, a left row's block is exactly one null-padded
row with a null offset. -/
theorem leftBlock_no_match {R : DFrame} {hard : List String}
    {fl fr off : String} {l : Row}
    (hlfr : rowHasCol l fr = false) (hloff : rowHasCol l off = false)
    (hoffR : off ∉ R.cols)
    (hempty : (R.rows.filter (matchKeys hard l)).isEmpty = true) :
    leftBlock R hard fl fr off l
      = [l ++ (nullRightRow hard R.cols ++ [(off, (none : Cell))])] := by
  unfold leftBlock
  rw [hempty]
  simp only [if_true, List.map_cons, List.map_nil]
  have hXoff : rowHasCol (nullRightRow hard R.cols) off = false :=
    rowHasCol_nullRight_false hoffR
  have hv : cellSub (rowGet (l ++ nullRightRow hard R.cols) fr)
      (rowGet (l ++ nullRightRow hard R.cols) fl) = none := by
    rw [rowGet_append_of_not_hasCol hlfr, rowGet_nullRight, cellSub_none_left]
  rw [rowSet_of_not_hasCol (by rw [rowHasCol_append, hloff, hXoff]; rfl), hv,
    List.append_assoc]

theorem rowGet_nullTail_none {hard rcols : List String} {off c : String} :
    rowGet (nullRightRow hard rcols ++ [(off, (none : Cell))]) c = none := by
  rw [rowGet_append]
  rcases h : rowHasCol (nullRightRow hard rcols) c with _ | _
  · by_cases hc : c = off
    · subst hc
      exact rowGet_singleton_same
    · exact rowGet_singleton_of_ne hc
  · exact rowGet_nullRight

theorem sum_map_eq_count {α : Type} [DecidableEq α] [BEq α] [LawfulBEq α]
    (a : α) (L : List α)
    (g : α → ℕ) (h : ∀ x ∈ L, g x = if x = a then 1 else 0) :
    (L.map g).sum = L.count a := by
  induction L with
  | nil => rfl
  | cons b L ih =>
    simp only [List.map_cons, List.sum_cons, List.count_cons]
    rw [ih (fun x hx => h x (List.mem_cons_of_mem b hx)),
      h b (List.mem_cons_self b L)]
    by_cases hba : b = a
    · simp [hba]
      omega
    · simp [hba]

theorem wf_row_length {r : Row} {cols : List String}
    (hwf : rowKeys r = cols) : r.length = cols.length := by
  rw [← hwf]
  unfold rowKeys
  rw [List.length_map]

/-- C5 (counterexample): a left row with a NULL visit date and no matching
right row is dropped by the rank filter (null group key), so it does not
appear once in the output as the claim requires. -/
theorem C5_unmatched_left_counterexample :
    ¬ ((fuzzy_join_date
        ⟨["subject_id", "neurobooth_visit_dates"],
         [[("subject_id", some 1), ("neurobooth_visit_dates", none)]]⟩
        ⟨["subject_id", "end_time_demographic"], []⟩
        ["subject_id"] "neurobooth_visit_dates" "end_time_demographic"
        "demographic_offset_days" JoinHow.left).rows.countP
        (fun r => List.isPrefixOf
          [("subject_id", some 1), ("neurobooth_visit_dates", none)] r)
      = 1) := by
  decide

/-- C5 (amended): for well-formed inputs with fresh helper columns, a left
row with non-null hard keys and date that matches no right row appears in
the left-join output exactly as often as it occurs in the left table
(once, for a left table without duplicate rows), padded with nulls on
every right-side column and with a null offset: the all-null group is
ranked 1 and passes the filter. -/
theorem C5_unmatched_left_passthrough (L R : DFrame) (hard : List String)
    (fl fr off : String) (h : LeftJoinWF L R hard fl fr off)
    (hLrank : rankColName ∉ L.cols) (hRrank : rankColName ∉ R.cols)
    (hoffrank : off ≠ rankColName)
    (hdisj : ∀ c ∈ R.cols, c ∉ hard → c ∉ L.cols)
    (l : Row) (hl : l ∈ L.rows)
    (hnomatch : (R.rows.filter (matchKeys hard l)).isEmpty = true)
    (hnn : hasNullKey hard fl l = false) :
    (fuzzy_join_date L R hard fl fr off JoinHow.left).rows.count
        (l ++ (nullRightRow hard R.cols ++ [(off, (none : Cell))]))
      = L.rows.count l
    ∧ rowGet (l ++ (nullRightRow hard R.cols ++ [(off, (none : Cell))])) off
        = none
    ∧ ∀ c ∈ rightOnlyCols hard R.cols,
        rowGet (l ++ (nullRightRow hard R.cols ++ [(off, (none : Cell))])) c
          = none := by
  have hwl := h.wfL l hl
  have hlfr : rowHasCol l fr = false := wf_hasCol_false hwl h.frL
  have hloff : rowHasCol l off = false := wf_hasCol_false hwl h.offL
  have hno : ∀ r ∈ (candidateSet L R hard fl fr off JoinHow.left).rows,
      rowHasCol r rankColName = false :=
    candidate_not_hasCol L R hard fl fr off JoinHow.left rankColName
      (fun r hr => wf_hasCol_false (h.wfL r hr) hLrank)
      (fun r hr => wf_hasCol_false (h.wfR r hr) hRrank) hRrank hoffrank
  have hflrank : fl ≠ rankColName := fun he => hLrank (he ▸ h.flL)
  have hhardrank : ∀ c ∈ hard, c ≠ rankColName :=
    fun c hc he => hLrank (he ▸ h.hardL c hc)
  have hchar := fuzzy_survivors_eq L R hard fl fr off JoinHow.left hno
    hflrank hhardrank
  have hrows := candidateSet_left_rows L R hard fl fr off
  have hblock := @leftBlock_no_match R hard fl fr off l hlfr hloff h.offR
    hnomatch
  have hvmem : (l ++ (nullRightRow hard R.cols ++ [(off, (none : Cell))]))
      ∈ leftBlock R hard fl fr off l := by
    rw [hblock]
    exact List.mem_singleton_self _
  refine ⟨?_, ?_, ?_⟩
  · -- the count in the output
    have hpv : (!(hasNullKey hard fl
          (l ++ (nullRightRow hard R.cols ++ [(off, (none : Cell))])))
        && bestInGroup hard fl off
          (candidateSet L R hard fl fr off JoinHow.left).rows
          (l ++ (nullRightRow hard R.cols ++ [(off, (none : Cell))])))
        = true := by
      have hgk := (leftBlock_member h hl hvmem).2.1
      have hnk : hasNullKey hard fl
          (l ++ (nullRightRow hard R.cols ++ [(off, (none : Cell))]))
          = false := by
        rw [hasNullKey_congr hgk]
        exact hnn
      rw [hnk]
      have hbest : bestInGroup hard fl off
          (candidateSet L R hard fl fr off JoinHow.left).rows
          (l ++ (nullRightRow hard R.cols ++ [(off, (none : Cell))]))
          = true := by
        unfold bestInGroup
        rw [List.all_eq_true]
        intro r2 hr2
        rcases hgk2 : (groupKeyOf hard fl r2 == groupKeyOf hard fl
          (l ++ (nullRightRow hard R.cols ++ [(off, (none : Cell))])))
          with _ | _
        · simp [hgk2]
        · have hgkeq : groupKeyOf hard fl r2 = groupKeyOf hard fl l := by
            rw [beq_iff_eq] at hgk2
            exact hgk2.trans hgk
          have habs2 := absOffset_mem_of_group h hl hr2 hgkeq
          unfold blockOffsets at habs2
          rw [← filter_matchKeys_eq, hnomatch] at habs2
          simp only [if_true, List.mem_singleton] at habs2
          rw [habs2]
          simp [hgk2, ltCell]
      rw [hbest]
      rfl
    rw [hchar]
    have hcount1 : List.count
        (l ++ (nullRightRow hard R.cols ++ [(off, (none : Cell))]))
        (List.filter
          (fun r => !hasNullKey hard fl r
            && bestInGroup hard fl off
              (candidateSet L R hard fl fr off JoinHow.left).rows r)
          (candidateSet L R hard fl fr off JoinHow.left).rows)
        = List.count
          (l ++ (nullRightRow hard R.cols ++ [(off, (none : Cell))]))
          (candidateSet L R hard fl fr off JoinHow.left).rows :=
      List.count_filter hpv
    rw [hcount1, hrows, List.count_flatMap]
    apply sum_map_eq_count
    intro x hx
    by_cases hxl : x = l
    · subst hxl
      simp only [if_true, Function.comp_apply]
      rw [hblock]
      simp
    · simp only [hxl, if_false, Function.comp_apply]
      rw [List.count_eq_zero]
      intro hmem
      obtain ⟨t, ht⟩ := (leftBlock_member h hx hmem).1
      have hlen : l.length = x.length := by
        rw [wf_row_length (h.wfL x hx), wf_row_length hwl]
      exact hxl (List.append_inj_left ht hlen).symm
  · rw [rowGet_append_of_not_hasCol hloff]
    exact rowGet_nullTail_none
  · intro c hc
    have hcR : c ∈ R.cols := List.mem_of_mem_filter hc
    have hchard : c ∉ hard := by
      intro hmemc
      have hcontains := List.of_mem_filter hc
      rw [Bool.not_eq_eq_eq_not, Bool.not_true] at hcontains
      rw [show hard.contains c = hard.elem c from rfl] at hcontains
      rw [List.elem_iff.mpr hmemc] at hcontains
      simp at hcontains
    have hcL : rowHasCol l c = false :=
      wf_hasCol_false hwl (hdisj c hcR hchard)
    rw [rowGet_append_of_not_hasCol hcL]
    exact rowGet_nullTail_none

theorem C5_unmatched_left_passthrough_witness :
    (LeftJoinWF
        ⟨["subject_id", "neurobooth_visit_dates"],
         [[("subject_id", some 1), ("neurobooth_visit_dates", some 10)]]⟩
        ⟨["subject_id", "end_time_demographic"], []⟩
        ["subject_id"] "neurobooth_visit_dates" "end_time_demographic"
        "demographic_offset_days"
      ∧ rankColName ∉ ["subject_id", "neurobooth_visit_dates"]
      ∧ rankColName ∉ ["subject_id", "end_time_demographic"]
      ∧ "demographic_offset_days" ≠ rankColName
      ∧ (∀ c ∈ ["subject_id", "end_time_demographic"],
          c ∉ ["subject_id"] → c ∉ ["subject_id", "neurobooth_visit_dates"])
      ∧ [("subject_id", (some 1 : Cell)),
          ("neurobooth_visit_dates", (some 10 : Cell))]
          ∈ (⟨["subject_id", "neurobooth_visit_dates"],
              [[("subject_id", some 1),
                ("neurobooth_visit_dates", some 10)]]⟩ : DFrame).rows
      ∧ ((⟨["subject_id", "end_time_demographic"], []⟩ : DFrame).rows.filter
            (matchKeys ["subject_id"]
              [("subject_id", (some 1 : Cell)),
               ("neurobooth_visit_dates", (some 10 : Cell))])).isEmpty = true
      ∧ hasNullKey ["subject_id"] "neurobooth_visit_dates"
          [("subject_id", (some 1 : Cell)),
           ("neurobooth_visit_dates", (some 10 : Cell))] = false)
    ∧ ((fuzzy_join_date
        ⟨["subject_id", "neurobooth_visit_dates"],
         [[("subject_id", some 1), ("neurobooth_visit_dates", some 10)]]⟩
        ⟨["subject_id", "end_time_demographic"], []⟩
        ["subject_id"] "neurobooth_visit_dates" "end_time_demographic"
        "demographic_offset_days" JoinHow.left).rows.count
        ([("subject_id", (some 1 : Cell)),
          ("neurobooth_visit_dates", (some 10 : Cell))]
          ++ (nullRightRow ["subject_id"]
                ["subject_id", "end_time_demographic"]
              ++ [("demographic_offset_days", (none : Cell))]))
      = (⟨["subject_id", "neurobooth_visit_dates"],
          [[("subject_id", some 1),
            ("neurobooth_visit_dates", some 10)]]⟩ : DFrame).rows.count
          [("subject_id", (some 1 : Cell)),
           ("neurobooth_visit_dates", (some 10 : Cell))]
      ∧ rowGet ([("subject_id", (some 1 : Cell)),
          ("neurobooth_visit_dates", (some 10 : Cell))]
          ++ (nullRightRow ["subject_id"]
                ["subject_id", "end_time_demographic"]
              ++ [("demographic_offset_days", (none : Cell))]))
          "demographic_offset_days" = none
      ∧ ∀ c ∈ rightOnlyCols ["subject_id"]
          ["subject_id", "end_time_demographic"],
          rowGet ([("subject_id", (some 1 : Cell)),
            ("neurobooth_visit_dates", (some 10 : Cell))]
            ++ (nullRightRow ["subject_id"]
                  ["subject_id", "end_time_demographic"]
                ++ [("demographic_offset_days", (none : Cell))])) c
            = none) :=
  ⟨⟨⟨by decide, by decide, by decide, by decide, by decide, by decide,
      by decide, by decide⟩,
    by decide, by decide, by decide, by decide, by decide, by decide,
    by decide⟩,
   C5_unmatched_left_passthrough
     ⟨["subject_id", "neurobooth_visit_dates"],
      [[("subject_id", some 1), ("neurobooth_visit_dates", some 10)]]⟩
     ⟨["subject_id", "end_time_demographic"], []⟩
     ["subject_id"] "neurobooth_visit_dates" "end_time_demographic"
     "demographic_offset_days"
     ⟨by decide, by decide, by decide, by decide, by decide, by decide,
      by decide, by decide⟩
     (by decide) (by decide) (by decide) (by decide)
     [("subject_id", (some 1 : Cell)),
      ("neurobooth_visit_dates", (some 10 : Cell))]
     (by decide) (by decide) (by decide)⟩

/-! ## `DatabaseConnection.download` (lines 44-87) -/

/-- `df[[c1, c2, ...]]` (line 57): column projection; raises a `KeyError`
when a requested column is missing. -/
def DFrame.select (df : DFrame) (cs : List String) : Except String DFrame :=
  if cs.all (fun c => df.cols.contains c)
  then Except.ok ⟨cs, df.rows.map (fun r => cs.map (fun c => (c, rowGet r c)))⟩
  else Except.error "KeyError: columns not found"

/-- `fuzzy_join_date` as called by `download`, with the pandas failure
modes surfaced: `pd.merge` raises when a hard key is missing from either
frame, and reading a missing date column raises. -/
def fuzzy_join_date_checked (L R : DFrame) (hard : List String)
    (fl fr off : String) (how : JoinHow) : Except String DFrame :=
  if !(hard.all (fun c => L.cols.contains c && R.cols.contains c))
  then Except.error "KeyError: merge key"
  else if !((merge how hard L R).cols.contains fl
      && (merge how hard L R).cols.contains fr)
  then Except.error "KeyError: date column"
  else Except.ok (fuzzy_join_date L R hard fl fr off how)

/-- The cached attributes of a `DatabaseConnection` (lines 30-37). -/
structure ConnCache where
  subject : Option DFrame
  session : Option DFrame
  demographic : Option DFrame
  clinical : Option DFrame
  scales : Option DFrame
  prom_vaq : Option DFrame
  prom_ataxia : Option DFrame
  test_subjects : Option NDArr
deriving DecidableEq

/-- `DatabaseConnection.download` (lines 44-87). `fetch` abstracts
`download_tables` (the refresh wait plus the seven bulk reads): it either
raises or yields the seven tables by name. The model mutates the cache in
source order: `subject` and `session` are assigned BEFORE the session
view and the five fuzzy joins are computed (lines 55-56), and the five
join results are assigned only after the whole dict comprehension of
lines 74-82 has succeeded (lines 83-87). Returns the connection state
after the call together with the raised error, if any. -/
def download (fetch : Except String (String → DFrame)) (self : ConnCache) :
    ConnCache × Option String :=
  match fetch with
  | Except.error e => (self, some e)
  | Except.ok tables =>
    let self1 := { self with subject := some (tables "subject") }
    let self2 := { self1 with session := some (tables "rc_visit_dates") }
    match (tables "rc_visit_dates").select
        ["subject_id", "redcap_event_name", "neurobooth_visit_dates"] with
    | Except.error e => (self2, some e)
    | Except.ok session_view =>
      match fuzzy_join_date_checked session_view
          (tables "rc_demographic_clean") ["subject_id"]
          "neurobooth_visit_dates" "end_time_demographic"
          "demographic_offset_days" JoinHow.left with
      | Except.error e => (self2, some e)
      | Except.ok dem =>
        match fuzzy_join_date_checked session_view
            (tables "rc_clinical_clean") ["subject_id"]
            "neurobooth_visit_dates" "end_time_clinical"
            "clinical_offset_days" JoinHow.left with
        | Except.error e => (self2, some e)
        | Except.ok cli =>
          match fuzzy_join_date_checked session_view
              (tables "rc_ataxia_pd_scales_clean") ["subject_id"]
              "neurobooth_visit_dates" "visit_date"
              "scales_offset_days" JoinHow.left with
          | Except.error e => (self2, some e)
          | Except.ok sca =>
            match fuzzy_join_date_checked session_view
                (tables "rc_visual_activities_questionnaire") ["subject_id"]
                "neurobooth_visit_dates"
                "end_time_visual_activities_questionnaire"
                "vaq_offset_days" JoinHow.left with
            | Except.error e => (self2, some e)
            | Except.ok vaq =>
              match fuzzy_join_date_checked session_view
                  (tables "rc_prom_ataxia") ["subject_id"]
                  "neurobooth_visit_dates" "end_time_prom_ataxia"
                  "prom_ataxia_offset_days" JoinHow.left with
              | Except.error e => (self2, some e)
              | Except.ok pa =>
                ({ self2 with
                    demographic := some dem
                    clinical := some cli
                    scales := some sca
                    prom_vaq := some vaq
                    prom_ataxia := some pa }, none)

/-- C3 (counterexample): start from a connection whose `subject` cache was
set by a prior successful call; run `download` against a store whose
`rc_visit_dates` table lacks `subject_id`, so the session-view projection
raises AFTER `self.subject` and `self.session` were overwritten (lines
55-56): the call raises, yet `subject` no longer holds its prior value. -/
theorem C3_atomicity_counterexample :
    ((download
        (Except.ok (fun name =>
          if name = "rc_visit_dates"
          then ⟨["wrong_column"], []⟩
          else ⟨["subject_id"], []⟩))
        ⟨some ⟨["prior_subject_col"], []⟩, none, some ⟨["prior_dem"], []⟩,
         none, none, none, none, none⟩).2.isSome = true)
    ∧ ¬ ((download
        (Except.ok (fun name =>
          if name = "rc_visit_dates"
          then ⟨["wrong_column"], []⟩
          else ⟨["subject_id"], []⟩))
        ⟨some ⟨["prior_subject_col"], []⟩, none, some ⟨["prior_dem"], []⟩,
         none, none, none, none, none⟩).1.subject
      = some ⟨["prior_subject_col"], []⟩) := by
  exact ⟨rfl, by decide⟩

/-- C3 (amended): the five join-result caches are atomic — a successful
`download` populates all five, and a failing one leaves all five (and
`test_subjects`) exactly as they were — but `subject` and `session` are
assigned before the joins, so a call that raises during the session-view
projection or a join leaves them overwritten (see the counterexample). -/
theorem C3_five_join_caches_atomic
    (fetch : Except String (String → DFrame)) (st : ConnCache) :
    ((download fetch st).2 = none →
      ((download fetch st).1.demographic.isSome
        ∧ (download fetch st).1.clinical.isSome
        ∧ (download fetch st).1.scales.isSome
        ∧ (download fetch st).1.prom_vaq.isSome
        ∧ (download fetch st).1.prom_ataxia.isSome))
    ∧ ((download fetch st).2 ≠ none →
      ((download fetch st).1.demographic = st.demographic
        ∧ (download fetch st).1.clinical = st.clinical
        ∧ (download fetch st).1.scales = st.scales
        ∧ (download fetch st).1.prom_vaq = st.prom_vaq
        ∧ (download fetch st).1.prom_ataxia = st.prom_ataxia
        ∧ (download fetch st).1.test_subjects = st.test_subjects)) := by
  unfold download
  cases fetch with
  | error e =>
    constructor
    · intro hcon
      simp at hcon
    · intro _
      exact ⟨rfl, rfl, rfl, rfl, rfl, rfl⟩
  | ok tables =>
    repeat' split
    all_goals simp_all

theorem C3_five_join_caches_atomic_witness :
    ((download
        (Except.ok (fun name =>
          if name = "rc_visit_dates"
          then ⟨["subject_id", "redcap_event_name",
                 "neurobooth_visit_dates"], []⟩
          else if name = "rc_demographic_clean"
          then ⟨["subject_id", "end_time_demographic"], []⟩
          else if name = "rc_clinical_clean"
          then ⟨["subject_id", "end_time_clinical"], []⟩
          else if name = "rc_ataxia_pd_scales_clean"
          then ⟨["subject_id", "visit_date"], []⟩
          else if name = "rc_visual_activities_questionnaire"
          then ⟨["subject_id",
                 "end_time_visual_activities_questionnaire"], []⟩
          else if name = "rc_prom_ataxia"
          then ⟨["subject_id", "end_time_prom_ataxia"], []⟩
          else ⟨["subject_id"], []⟩))
        ⟨none, none, none, none, none, none, none, none⟩).2 = none)
    ∧ ((download
        (Except.ok (fun name =>
          if name = "rc_visit_dates"
          then ⟨["subject_id", "redcap_event_name",
                 "neurobooth_visit_dates"], []⟩
          else if name = "rc_demographic_clean"
          then ⟨["subject_id", "end_time_demographic"], []⟩
          else if name = "rc_clinical_clean"
          then ⟨["subject_id", "end_time_clinical"], []⟩
          else if name = "rc_ataxia_pd_scales_clean"
          then ⟨["subject_id", "visit_date"], []⟩
          else if name = "rc_visual_activities_questionnaire"
          then ⟨["subject_id",
                 "end_time_visual_activities_questionnaire"], []⟩
          else if name = "rc_prom_ataxia"
          then ⟨["subject_id", "end_time_prom_ataxia"], []⟩
          else ⟨["subject_id"], []⟩))
        ⟨none, none, none, none, none, none, none, none⟩).1.demographic.isSome
      ∧ (download
        (Except.ok (fun name =>
          if name = "rc_visit_dates"
          then ⟨["subject_id", "redcap_event_name",
                 "neurobooth_visit_dates"], []⟩
          else if name = "rc_demographic_clean"
          then ⟨["subject_id", "end_time_demographic"], []⟩
          else if name = "rc_clinical_clean"
          then ⟨["subject_id", "end_time_clinical"], []⟩
          else if name = "rc_ataxia_pd_scales_clean"
          then ⟨["subject_id", "visit_date"], []⟩
          else if name = "rc_visual_activities_questionnaire"
          then ⟨["subject_id",
                 "end_time_visual_activities_questionnaire"], []⟩
          else if name = "rc_prom_ataxia"
          then ⟨["subject_id", "end_time_prom_ataxia"], []⟩
          else ⟨["subject_id"], []⟩))
        ⟨none, none, none, none, none, none, none, none⟩).1.clinical.isSome
      ∧ (download
        (Except.ok (fun name =>
          if name = "rc_visit_dates"
          then ⟨["subject_id", "redcap_event_name",
                 "neurobooth_visit_dates"], []⟩
          else if name = "rc_demographic_clean"
          then ⟨["subject_id", "end_time_demographic"], []⟩
          else if name = "rc_clinical_clean"
          then ⟨["subject_id", "end_time_clinical"], []⟩
          else if name = "rc_ataxia_pd_scales_clean"
          then ⟨["subject_id", "visit_date"], []⟩
          else if name = "rc_visual_activities_questionnaire"
          then ⟨["subject_id",
                 "end_time_visual_activities_questionnaire"], []⟩
          else if name = "rc_prom_ataxia"
          then ⟨["subject_id", "end_time_prom_ataxia"], []⟩
          else ⟨["subject_id"], []⟩))
        ⟨none, none, none, none, none, none, none, none⟩).1.scales.isSome
      ∧ (download
        (Except.ok (fun name =>
          if name = "rc_visit_dates"
          then ⟨["subject_id", "redcap_event_name",
                 "neurobooth_visit_dates"], []⟩
          else if name = "rc_demographic_clean"
          then ⟨["subject_id", "end_time_demographic"], []⟩
          else if name = "rc_clinical_clean"
          then ⟨["subject_id", "end_time_clinical"], []⟩
          else if name = "rc_ataxia_pd_scales_clean"
          then ⟨["subject_id", "visit_date"], []⟩
          else if name = "rc_visual_activities_questionnaire"
          then ⟨["subject_id",
                 "end_time_visual_activities_questionnaire"], []⟩
          else if name = "rc_prom_ataxia"
          then ⟨["subject_id", "end_time_prom_ataxia"], []⟩
          else ⟨["subject_id"], []⟩))
        ⟨none, none, none, none, none, none, none, none⟩).1.prom_vaq.isSome
      ∧ (download
        (Except.ok (fun name =>
          if name = "rc_visit_dates"
          then ⟨["subject_id", "redcap_event_name",
                 "neurobooth_visit_dates"], []⟩
          else if name = "rc_demographic_clean"
          then ⟨["subject_id", "end_time_demographic"], []⟩
          else if name = "rc_clinical_clean"
          then ⟨["subject_id", "end_time_clinical"], []⟩
          else if name = "rc_ataxia_pd_scales_clean"
          then ⟨["subject_id", "visit_date"], []⟩
          else if name = "rc_visual_activities_questionnaire"
          then ⟨["subject_id",
                 "end_time_visual_activities_questionnaire"], []⟩
          else if name = "rc_prom_ataxia"
          then ⟨["subject_id", "end_time_prom_ataxia"], []⟩
          else ⟨["subject_id"], []⟩))
        ⟨none, none, none, none, none, none, none, none⟩).1.prom_ataxia.isSome) :=
  ⟨by decide,
   (C3_five_join_caches_atomic
     (Except.ok (fun name =>
       if name = "rc_visit_dates"
       then ⟨["subject_id", "redcap_event_name",
              "neurobooth_visit_dates"], []⟩
       else if name = "rc_demographic_clean"
       then ⟨["subject_id", "end_time_demographic"], []⟩
       else if name = "rc_clinical_clean"
       then ⟨["subject_id", "end_time_clinical"], []⟩
       else if name = "rc_ataxia_pd_scales_clean"
       then ⟨["subject_id", "visit_date"], []⟩
       else if name = "rc_visual_activities_questionnaire"
       then ⟨["subject_id",
              "end_time_visual_activities_questionnaire"], []⟩
       else if name = "rc_prom_ataxia"
       then ⟨["subject_id", "end_time_prom_ataxia"], []⟩
       else ⟨["subject_id"], []⟩))
     ⟨none, none, none, none, none, none, none, none⟩).1 (by decide)⟩

end Neurobooth
